import Mathlib

/-!
Verification of the elevator module (src/modules/elevator.js).

The definitions below are a shallow embedding of the module's core logic:
the current-level messaging layer, the socket de-duplication, the approval
routing and execution, and the network sync engine.  Host primitives
(Foundry documents, sockets, settings) are modelled as explicit state that
the embedded functions read and return; JavaScript strings are Lean
`String`s, `String(x ?? "").trim()` is `jsTrim`, and missing payload
fields are the empty string (exactly what `String(undefined ?? "")`
produces).
-/

/-- JS `\s`-style whitespace, restricted to the ASCII characters that the
module ever produces or consumes. -/
def isJsWs (c : Char) : Bool :=
  c = ' ' || c = '\t' || c = '\n' || c = '\r' || c = '\x0b' || c = '\x0c'

/-- Trim of a character list, removing `isJsWs` characters at both ends. -/
def jsTrimList (cs : List Char) : List Char :=
  ((cs.dropWhile isJsWs).reverse.dropWhile isJsWs).reverse

/-- Embeds JavaScript `String(x).trim()`. -/
def jsTrim (s : String) : String :=
  (jsTrimList s.toList).asString

/-- Embeds `String(n).padStart(2, "0")` for a natural number. -/
def pad2 (n : Nat) : String :=
  let s := toString n
  if s.length ≥ 2 then s else "0" ++ s

/-- Association-list read: `m?.[k] || ""`. -/
def getA (m : List (String × String)) (k : String) : String :=
  ((m.find? (fun p => p.1 == k)).map (fun p => p.2)).getD ""

/-- Association-list write: `m[k] = v` on a JS object. -/
def setA (m : List (String × String)) (k v : String) : List (String × String) :=
  if m.any (fun p => p.1 == k) then
    m.map (fun p => if p.1 == k then (k, v) else p)
  else m ++ [(k, v)]

/-- Set-like insert used to model the per-elevator rerender timer map:
`queueRerenderOpenElevatorPanels` replaces any pending timer for the same
elevator id, so the observable state is the set of ids with a pending
coalesced rerender. -/
def insertOnce (l : List String) (x : String) : List String :=
  if l.contains x then l else l ++ [x]

/-! ## Messaging layer (src/modules/elevator.js lines 66-134, 1651-1798) -/

/-- The socket channels the module emits on: the unified `module.elevator`
channel and the three legacy per-event channels. -/
inductive Channel
  | unified
  | legacySet
  | legacyGet
  | legacyChanged
deriving DecidableEq, Repr

/-- A socket payload.  Fields the JS code reads with `data?.field` are
plain strings here, with `""` standing for a missing field (the code
always normalizes with `String(x ?? "").trim()`). -/
structure SocketMsg where
  mtype : String
  requestId : String
  elevatorId : String
  regionUuid : String
  requester : String
deriving DecidableEq, Repr

/-- One client's mutable state relevant to the messaging layer:
`CLIENT_STATE.currentLevelByElevatorId` (optimistic cache), the persisted
world setting `currentLevelByElevatorId`, the pending coalesced-rerender
ids, and the `_SEEN_SOCKET_IDS` map of (request id, timestamp). -/
structure GameState where
  cache : List (String × String)
  world : List (String × String)
  rerender : List String
  seen : List (String × Nat)
deriving DecidableEq, Repr

/-- Embeds the opportunistic cleanup loop in `wasSocketRequestSeen`:
entries older than the window are deleted. -/
def cleanupSeen (now windowMs : Nat) (seen : List (String × Nat)) : List (String × Nat) :=
  seen.filter (fun p => ¬ (now - p.2 > windowMs))

/-- Embeds `wasSocketRequestSeen(requestId, windowMs)` (elevator.js
1655-1666).  Returns the boolean result together with the updated
`_SEEN_SOCKET_IDS` map. -/
def wasSocketRequestSeen (requestId : String) (now windowMs : Nat)
    (seen : List (String × Nat)) : Bool × List (String × Nat) :=
  let id := jsTrim requestId
  if id = "" then (false, seen)
  else
    let cleaned := cleanupSeen now windowMs seen
    if (cleaned.find? (fun p => p.1 == id)).isSome then (true, cleaned)
    else (false, cleaned ++ [(id, now)])

/-- Embeds `queueRerenderOpenElevatorPanels` at the level of observable
state: a pending coalesced rerender is registered for the (nonempty
trimmed) elevator id. -/
def queueRerenderOpenElevatorPanels (elevatorId : String) (r : List String) : List String :=
  let elevId := jsTrim elevatorId
  if elevId = "" then r else insertOnce r elevId

/-- Embeds `requestSetCurrentLevel(elevatorId, regionUuid)` (elevator.js
108-134).  `isGM` is `game.user?.isGM`, `requestId` the fresh id from
`makeRequestId()`, `requester` is `game.user?.id`.  Returns the new state
and the emitted socket messages in order. -/
def requestSetCurrentLevel (elevatorId regionUuid : String) (isGM : Bool)
    (requestId requester : String) (s : GameState) :
    GameState × List (Channel × SocketMsg) :=
  let elevId := jsTrim elevatorId
  let uuid := jsTrim regionUuid
  if elevId = "" ∨ uuid = "" then (s, [])
  else
    let s1 := { s with cache := setA s.cache elevId uuid,
                       rerender := queueRerenderOpenElevatorPanels elevId s.rerender }
    if isGM then
      let s2 := { s1 with world := setA s1.world elevId uuid }
      let msg : SocketMsg :=
        { mtype := "currentLevelChanged", requestId := requestId,
          elevatorId := elevId, regionUuid := uuid, requester := "" }
      (s2, [(Channel.unified, msg), (Channel.legacyChanged, msg)])
    else
      let msg : SocketMsg :=
        { mtype := "setCurrentLevel", requestId := requestId,
          elevatorId := elevId, regionUuid := uuid, requester := requester }
      (s1, [(Channel.unified, msg), (Channel.legacySet, msg)])

/-- Result of one run of the socket message handler. -/
structure HandleResult where
  state : GameState
  emits : List (Channel × SocketMsg)
  droppedByDedup : Bool
deriving DecidableEq, Repr

/-- Embeds the `currentLevelChanged` branch of `handleSocketMessage`
(elevator.js 1777-1788).  It runs on every client (there is no GM check):
it writes the optimistic cache entry and queues a coalesced rerender. -/
def onCurrentLevelChanged (data : SocketMsg) (s : GameState) : GameState :=
  let elevId := jsTrim data.elevatorId
  let uuid := jsTrim data.regionUuid
  if elevId = "" ∨ uuid = "" then s
  else { s with cache := setA s.cache elevId uuid,
                rerender := queueRerenderOpenElevatorPanels elevId s.rerender }

/-- Embeds the GM-only `setCurrentLevel` branch of `handleSocketMessage`
(elevator.js 1734-1755): persist the world store and re-broadcast
`currentLevelChanged` on both channels. -/
def onSetCurrentLevel (data : SocketMsg) (isGM : Bool) (freshId : String)
    (s : GameState) : GameState × List (Channel × SocketMsg) :=
  if ¬ isGM then (s, [])
  else
    let elevId := jsTrim data.elevatorId
    let uuid := jsTrim data.regionUuid
    if elevId = "" ∨ uuid = "" then (s, [])
    else
      let s1 := { s with world := setA s.world elevId uuid }
      let rid := if jsTrim data.requestId = "" then freshId else jsTrim data.requestId
      let msg : SocketMsg :=
        { mtype := "currentLevelChanged", requestId := rid,
          elevatorId := elevId, regionUuid := uuid, requester := "" }
      (s1, [(Channel.unified, msg), (Channel.legacyChanged, msg)])

/-- Embeds the GM-only `getCurrentLevel` branch of `handleSocketMessage`
(elevator.js 1758-1774): read the world store and broadcast the current
value when known. -/
def onGetCurrentLevel (data : SocketMsg) (isGM : Bool) (freshId : String)
    (s : GameState) : GameState × List (Channel × SocketMsg) :=
  if ¬ isGM then (s, [])
  else
    let elevId := jsTrim data.elevatorId
    if elevId = "" then (s, [])
    else
      let uuid := jsTrim (getA s.world elevId)
      if uuid = "" then (s, [])
      else
        let rid := if jsTrim data.requestId = "" then freshId else jsTrim data.requestId
        let msg : SocketMsg :=
          { mtype := "currentLevelChanged", requestId := rid,
            elevatorId := elevId, regionUuid := uuid, requester := "" }
        (s, [(Channel.unified, msg), (Channel.legacyChanged, msg)])

/-- Embeds the `socketPing` branch: only a GM responds, with a pong. -/
def onSocketPing (data : SocketMsg) (isGM : Bool) (selfId : String)
    (s : GameState) : GameState × List (Channel × SocketMsg) :=
  if ¬ isGM then (s, [])
  else
    let msg : SocketMsg :=
      { mtype := "socketPong", requestId := data.requestId,
        elevatorId := "", regionUuid := "", requester := selfId }
    (s, [(Channel.unified, msg)])

/-- Embeds `handleSocketMessage` (elevator.js 1688-1790): an empty type is
ignored; a request id already seen within the dedup window drops the
message; otherwise the message dispatches on its type. -/
def handleSocketMessage (data : SocketMsg) (isGM : Bool) (selfId freshId : String)
    (now : Nat) (s : GameState) : HandleResult :=
  let t := jsTrim data.mtype
  if t = "" then ⟨s, [], false⟩
  else
    let seenResult := wasSocketRequestSeen data.requestId now 8000 s.seen
    let s1 := { s with seen := seenResult.2 }
    if seenResult.1 then ⟨s1, [], true⟩
    else if t = "socketPing" then
      let r := onSocketPing data isGM selfId s1
      ⟨r.1, r.2, false⟩
    else if t = "socketPong" then ⟨s1, [], false⟩
    else if t = "setCurrentLevel" then
      let r := onSetCurrentLevel data isGM freshId s1
      ⟨r.1, r.2, false⟩
    else if t = "getCurrentLevel" then
      let r := onGetCurrentLevel data isGM freshId s1
      ⟨r.1, r.2, false⟩
    else if t = "currentLevelChanged" then
      ⟨onCurrentLevelChanged data s1, [], false⟩
    else ⟨s1, [], false⟩

/-! ## Users, actors and approval routing (elevator.js 212-250, 531-545) -/

/-- A Foundry user as the module observes it: id, GM flag, online flag. -/
structure ElevUser where
  id : String
  isGM : Bool
  active : Bool
deriving DecidableEq, Repr

/-- An actor's ownership record: per-user levels plus the `default` level
(`ownership?.[u.id] ?? ownership?.default ?? 0`). -/
structure ActorDoc where
  ownership : List (String × Int)
  defaultLevel : Int
deriving DecidableEq, Repr

/-- A token document; `actor` may be missing. -/
structure TokenDoc where
  actor : Option ActorDoc
deriving DecidableEq, Repr

/-- The ownership level an actor grants a user id. -/
def ownLevel (a : ActorDoc) (uid : String) : Int :=
  ((a.ownership.find? (fun p => p.1 == uid)).map (fun p => p.2)).getD a.defaultLevel

/-- Embeds `getActorOwnerUserIds(actorDoc)` (elevator.js 212-227): the ids
of users whose ownership level on the actor is at least OWNER (3). -/
def getActorOwnerUserIds (users : List ElevUser) (actor : Option ActorDoc) : List String :=
  match actor with
  | none => []
  | some a => (users.filter (fun u => ownLevel a u.id ≥ 3)).map (fun u => u.id)

/-- Embeds `getGMUserIds({ onlineOnly })` (elevator.js 229-233). -/
def getGMUserIds (users : List ElevUser) (onlineOnly : Bool) : List String :=
  (users.filter (fun u => u.isGM && (!onlineOnly || u.active))).map (fun u => u.id)

/-- `game.users?.get?.(uid)` as a lookup in the user list. -/
def getUser (users : List ElevUser) (uid : String) : Option ElevUser :=
  users.find? (fun u => u.id == uid)

/-- Embeds `computeApprovalRecipientsForToken(tokenDoc)` (elevator.js
235-250).  Returns the recipient ids and the `routedTo` tag ("owner" or
"gm"). -/
def computeApprovalRecipientsForToken (users : List ElevUser) (tok : TokenDoc) :
    List String × String :=
  let ownerIds := getActorOwnerUserIds users tok.actor
  let onlineOwnerIds := ownerIds.filter (fun uid => ((getUser users uid).map (fun u => u.active)).getD false)
  let onlineNonGmOwners := onlineOwnerIds.filter (fun uid => !(((getUser users uid).map (fun u => u.isGM)).getD false))
  if onlineNonGmOwners ≠ [] then (onlineNonGmOwners, "owner")
  else
    let onlineGms := getGMUserIds users true
    if onlineGms ≠ [] then (onlineGms, "gm")
    else (getGMUserIds users false, "gm")

/-- Embeds `isTokenOwnedByUser(tokenDoc, userId)` (elevator.js 531-545)
through the actor's ownership record: false when the user id does not
resolve to a user, otherwise the ownership level must reach OWNER (3). -/
def isTokenOwnedByUser (users : List ElevUser) (tok : TokenDoc) (userId : String) : Bool :=
  let uid := jsTrim userId
  match if uid = "" then none else getUser users uid with
  | none => false
  | some _ =>
    match tok.actor with
    | none => false
    | some a => ownLevel a uid ≥ 3

/-! ## Approval execution (elevator.js 1815-1899, approve click handler) -/

/-- The `teleportRequest` payload embedded in an approval chat card.
Missing fields are the empty string / empty list. -/
structure ApprovalPayload where
  destUUID : String
  elevatorId : String
  requester : String
  tokenUUIDs : List String
  sourceRegionUuid : String
  sceneFromId : String
deriving DecidableEq, Repr

/-- The host facts the approve handler consults: whether the destination
uuid resolves to a RegionDocument, the token documents reachable by uuid,
whether the origin scene and region resolve, the uuids of tokens
geometrically inside the origin region (host geometry), and which
teleports succeed (`teleportToken` not throwing). -/
structure ApprovalWorld where
  users : List ElevUser
  destIsRegion : Bool
  tokens : List (String × TokenDoc)
  sourceResolved : Bool
  insideTokenUuids : List String
  teleportOk : String → Bool

/-- Lookup of a token document by uuid (`fromUuid`). -/
def getToken (w : ApprovalWorld) (uuid : String) : Option TokenDoc :=
  ((w.tokens.find? (fun p => p.1 == uuid)).map (fun p => p.2))

/-- Observable outcome of one approve click. -/
structure ApprovalOutcome where
  acted : Bool
  teleported : List String
  warned : Bool
  requestedSetLevel : Option (String × String)
  notifiedRequester : Option String
  messageDeleted : Bool
deriving DecidableEq, Repr

/-- The candidate token list: the explicit `payload.tokenUUIDs` (filtered
for truthiness) when nonempty, otherwise the tokens inside the origin
region excluding those owned by the requester (elevator.js 1833-1849). -/
def approvalCandidates (p : ApprovalPayload) (w : ApprovalWorld) : List String :=
  let explicit := p.tokenUUIDs.filter (fun u => u ≠ "")
  if explicit ≠ [] then explicit
  else if p.sourceRegionUuid ≠ "" ∧ p.sceneFromId ≠ "" ∧ w.sourceResolved then
    w.insideTokenUuids.filter (fun u =>
      match getToken w u with
      | none => true
      | some td => !isTokenOwnedByUser w.users td p.requester)
  else []

/-- One iteration of the approval teleport loop (elevator.js 1854-1865):
skip unresolvable tokens, skip tokens a non-GM approver does not own, and
record the uuid when the teleport primitive does not throw. -/
def approveTokenStep (w : ApprovalWorld) (approverId : String) (isGM : Bool)
    (acc : List String) (tUUID : String) : List String :=
  match getToken w tUUID with
  | none => acc
  | some td =>
    if ¬ isGM ∧ ¬ isTokenOwnedByUser w.users td approverId then acc
    else if w.teleportOk tUUID then acc ++ [tUUID]
    else acc

/-- Embeds the approve-button click handler (elevator.js 1827-1893). -/
def approveClick (p : ApprovalPayload) (w : ApprovalWorld) (approverId : String)
    (isGM : Bool) : ApprovalOutcome :=
  if ¬ w.destIsRegion then
    { acted := false, teleported := [], warned := false,
      requestedSetLevel := none, notifiedRequester := none, messageDeleted := false }
  else
    let approved := (approvalCandidates p w).foldl (approveTokenStep w approverId isGM) []
    if approved = [] then
      { acted := true, teleported := [], warned := true,
        requestedSetLevel := none, notifiedRequester := none, messageDeleted := false }
    else
      let elevId := jsTrim p.elevatorId
      let rid := jsTrim p.requester
      { acted := true, teleported := approved, warned := false,
        requestedSetLevel := if elevId ≠ "" then some (elevId, p.destUUID) else none,
        notifiedRequester := if rid ≠ "" then some rid else none,
        messageDeleted := true }

/-! ## Region naming (elevator.js 354-369)

`stripElevatorNamePrefix` applies the regular expression
`^ELV\s+.+?\s+\d{2}\s+` with JavaScript's backtracking semantics.  The
search below mirrors those semantics exactly for this pattern: the leading
`\s+` is greedy (longest run first), `.+?` is lazy (shortest extension
first), and the `\s+` runs around the two digits can only succeed at the
full whitespace run (a shorter attempt would put a whitespace character
where a digit or the pattern end is required). -/

/-- Length of the leading whitespace run. -/
def wsRunLen : List Char → Nat
  | [] => 0
  | c :: cs => if isJsWs c then wsRunLen cs + 1 else 0

/-- Try to match `\s+\d{2}\s+` at the start of `rest`, returning the
characters after the match.  The whitespace runs are maximal, which is the
only length at which the backtracking engine can succeed here. -/
def tryTail (rest : List Char) : Option (List Char) :=
  let c := wsRunLen rest
  if c = 0 then none
  else
    match rest.drop c with
    | d1 :: d2 :: r2 =>
      if d1.isDigit && d2.isDigit then
        let e := wsRunLen r2
        if e = 0 then none else some (r2.drop e)
      else none
    | _ => none

/-- Lazy `.+?`: consume at least one character, then try the tail, growing
the consumed part one character at a time.  JavaScript `.` (without the
`s` flag) never matches the line terminators `\n` and `\r`, so an
alternative that would have to consume one of them fails outright. -/
def findMid : List Char → Option (List Char)
  | [] => none
  | x :: xs =>
    if x == '\n' || x == '\r' then none
    else
      match tryTail xs with
      | some r => some r
      | none => findMid xs

/-- Greedy leading `\s+`: try the longest whitespace run first, then
shorter ones, never zero. -/
def goA (t : List Char) : Nat → Option (List Char)
  | 0 => none
  | a + 1 =>
    match findMid (t.drop (a + 1)) with
    | some r => some r
    | none => goA t a

/-- Match `\s+.+?\s+\d{2}\s+` (the pattern after the literal `ELV`)
against `t`, returning the suffix after the matched region. -/
def stripSearch (t : List Char) : Option (List Char) :=
  goA t (wsRunLen t)

/-- Embeds `stripElevatorNamePrefix(name)` (elevator.js 354-362): trim,
return unchanged unless the name starts with `"ELV "`, otherwise delete
the `^ELV\s+.+?\s+\d{2}\s+` match; if the remainder trims to nothing the
original (trimmed) name is kept. -/
def stripElevatorRegionName (name : String) : String :=
  let s := jsTrimList name.toList
  match s with
  | 'E' :: 'L' :: 'V' :: ' ' :: _ =>
    match stripSearch (s.drop 3) with
    | some rest =>
      let stripped := jsTrimList rest
      if stripped = [] then s.asString else stripped.asString
    | none => s.asString
  | _ => s.asString

/-- Embeds `formatElevatorRegionName(elevatorId, floorNumber, label)`
(elevator.js 364-369).  The floor is clamped below at 1
(`Math.max(1, Number(floorNumber) || 1)`) and zero-padded to width 2. -/
def formatElevatorRegionName (elevatorId : String) (floorNumber : Nat) (label : String) : String :=
  let id := jsTrim elevatorId
  let num := pad2 (max 1 floorNumber)
  let lbl := stripElevatorRegionName (jsTrim label)
  jsTrim ("ELV " ++ id ++ " " ++ num ++ " " ++ lbl)

/-! ## Stop registry and network sync engine (elevator.js 342-458) -/

/-- One stop of a network: a region uuid and a display label. -/
structure Stop where
  uuid : String
  label : String
deriving DecidableEq, Repr

/-- A registry entry (`elevatorLinksById[elevatorId]`).  `homeUuid` is
`""` when unset (falsy). -/
structure MasterEntry where
  stops : List Stop
  homeUuid : String
  theme : String
  iconSrc : String
  iconSize : Nat
  iconAlwaysOn : Bool
deriving DecidableEq, Repr

/-- A region behavior; only `teleportToken` behaviors matter to the sync
engine.  `destination` is `""` when unset. -/
structure RegionBehavior where
  btype : String
  destination : String
deriving DecidableEq, Repr

/-- The elevator flags the sync engine owns on a region document, plus an
opaque `extra` blob standing for any foreign keys that
`foundry.utils.mergeObject` preserves. -/
structure ElevFlags where
  enabled : Bool
  elevatorId : String
  isElevatorHere : Bool
  theme : String
  iconSrc : String
  iconSize : Nat
  iconAlwaysOn : Bool
  levels : List Stop
  returnTo : Option Stop
  extra : String
deriving DecidableEq, Repr

/-- A region document as the sync engine observes it. -/
structure RegionDoc where
  uuid : String
  name : String
  flags : ElevFlags
  behaviors : List RegionBehavior
deriving DecidableEq, Repr

/-- The persisted world state the sync engine reads and writes: the
`elevatorLinksById` setting and the region documents (`fromUuid` resolves
a uuid exactly when a document with that uuid exists here). -/
structure SyncState where
  linksById : List (String × MasterEntry)
  docs : List RegionDoc
deriving DecidableEq, Repr

/-- A write the sync engine performs against the host.  Document updates
carry Foundry's default diff semantics: an update call whose payload
changes nothing is skipped by the backend, so it records no write. -/
inductive WriteOp
  | pruneLinks (elevatorId : String) (stops : List Stop)
  | docUpdate (uuid : String) (name : Option String) (flags : ElevFlags)
  | behaviorUpdate (uuid : String) (index : Nat) (destination : String)
deriving DecidableEq, Repr

/-- The loop of `normalizeStops`, carrying the `seen` uuid set. -/
def normalizeStopsAux (seen : List String) : List Stop → List Stop
  | [] => []
  | s :: rest =>
    let uuid := jsTrim s.uuid
    if uuid = "" ∨ seen.contains uuid then normalizeStopsAux seen rest
    else
      { uuid := uuid, label := stripElevatorRegionName (jsTrim s.label) } ::
        normalizeStopsAux (seen ++ [uuid]) rest

/-- Embeds `normalizeStops(stops)` (elevator.js 342-352): drop empty
uuids, de-duplicate keeping the first occurrence, trim labels and strip
the module's own name format from them. -/
def normalizeStops (stops : List Stop) : List Stop :=
  normalizeStopsAux [] stops

/-- `fromUuid` restricted to RegionDocuments: lookup in the document
table. -/
def findDoc (st : SyncState) (uuid : String) : Option RegionDoc :=
  st.docs.find? (fun d => d.uuid == uuid)

/-- Replace the document with the given uuid. -/
def updateDoc (st : SyncState) (uuid : String) (f : RegionDoc → RegionDoc) : SyncState :=
  { st with docs := st.docs.map (fun d => if d.uuid == uuid then f d else d) }

/-- Embeds `restrictTeleportBehaviorsToNetwork(regionDoc, allowed,
fallback)` (elevator.js 371-390) on one document: every `teleportToken`
behavior with a destination outside the allowed set is retargeted at the
fallback, provided the fallback itself is allowed.  Returns the new
behavior list and the behavior writes performed. -/
def restrictTeleportBehaviorsToNetwork (docUuid : String) (behaviors : List RegionBehavior)
    (allowed : List String) (fallbackUUID : String) : List RegionBehavior × List WriteOp :=
  let fallback := if fallbackUUID ≠ "" ∧ allowed.contains fallbackUUID then some fallbackUUID else none
  let step := fun (acc : List RegionBehavior × List WriteOp × Nat) (b : RegionBehavior) =>
    let i := acc.2.2
    if b.btype ≠ "teleportToken" then (acc.1 ++ [b], acc.2.1, i + 1)
    else if b.destination = "" then (acc.1 ++ [b], acc.2.1, i + 1)
    else if allowed.contains b.destination then (acc.1 ++ [b], acc.2.1, i + 1)
    else
      match fallback with
      | none => (acc.1 ++ [b], acc.2.1, i + 1)
      | some fb =>
        (acc.1 ++ [{ b with destination := fb }],
         acc.2.1 ++ [WriteOp.behaviorUpdate docUuid i fb], i + 1)
  let r := behaviors.foldl step ([], [], 0)
  (r.1, r.2.1)

/-- The desired flags the sync engine computes for one member stop
(elevator.js 436-448), merged over the current flags (the merge overwrites
every key the engine owns and keeps foreign keys). -/
def desiredFlags (elevatorId : String) (master : MasterEntry) (cleanedStops : List Stop)
    (home homeLabel : String) (stopUuid : String) (current : ElevFlags) : ElevFlags :=
  { enabled := true
    elevatorId := elevatorId
    isElevatorHere := stopUuid = home
    theme := master.theme
    iconSrc := master.iconSrc
    iconSize := master.iconSize
    iconAlwaysOn := master.iconAlwaysOn
    levels := cleanedStops.filter (fun s => s.uuid ≠ stopUuid)
    returnTo := if home ≠ "" ∧ home ≠ stopUuid then some { uuid := home, label := homeLabel } else none
    extra := current.extra }

/-- The desired display name for one member stop (elevator.js 426-432):
floor numbers run in reverse list order, and the stop label falls back to
the resolved label and then the document name. -/
def desiredName (elevatorId : String) (cleanedStops : List Stop)
    (resolvedLabel docName : String) (stopUuid : String) : String :=
  let fi0 := cleanedStops.findIdx (fun s => s.uuid == stopUuid)
  let fi := if fi0 < cleanedStops.length then fi0 else 0
  let floorNumber := cleanedStops.length - fi
  let idxLabel := ((cleanedStops.get? fi).map (fun s => s.label)).getD ""
  let stopLabel := if idxLabel ≠ "" then idxLabel else if resolvedLabel ≠ "" then resolvedLabel else docName
  formatElevatorRegionName elevatorId floorNumber stopLabel

/-- The resolution step of the sync engine (elevator.js 403-410): keep
only stops whose uuid resolves to a region document, defaulting an empty
label to the document's name. -/
def resolvedStops (st : SyncState) (stops : List Stop) : List Stop :=
  stops.filterMap (fun s =>
    (findDoc st s.uuid).map (fun d =>
      { uuid := s.uuid, label := if s.label ≠ "" then s.label else d.name : Stop }))

/-- One iteration of the sync loop (elevator.js 426-457) for the resolved
stop `(uuid, label)`: update the document's flags and (when it differs)
its name, then constrain its teleport behaviors.  The document write is
recorded only when the diff is nonempty. -/
def syncStopStep (elevatorId : String) (master : MasterEntry) (cleanedStops : List Stop)
    (home homeLabel : String) (allowed : List String)
    (acc : SyncState × List WriteOp) (r : Stop) : SyncState × List WriteOp :=
  match findDoc acc.1 r.uuid with
  | none => acc
  | some doc =>
    let dn := desiredName elevatorId cleanedStops r.label doc.name r.uuid
    let nf := desiredFlags elevatorId master cleanedStops home homeLabel r.uuid doc.flags
    let nameChange : Option String := if doc.name ≠ dn then some dn else none
    let docWrites : List WriteOp :=
      if nameChange.isSome ∨ nf ≠ doc.flags then [WriteOp.docUpdate r.uuid nameChange nf] else []
    let restricted := restrictTeleportBehaviorsToNetwork r.uuid doc.behaviors allowed home
    let st1 := updateDoc acc.1 r.uuid
      (fun d => { d with name := dn, flags := nf, behaviors := restricted.1 })
    (st1, acc.2 ++ docWrites ++ restricted.2)

/-- Embeds `syncElevatorNetwork(elevatorId, { homeUuid })` (elevator.js
392-458).  `isGM` is the caller's authority flag; `homeUuid` is the
optional override (`""` when absent).  Returns the resulting state and
the writes performed, in order. -/
def syncElevatorNetwork (elevatorId homeUuid : String) (isGM : Bool)
    (st : SyncState) : SyncState × List WriteOp :=
  if ¬ isGM then (st, [])
  else if elevatorId = "" then (st, [])
  else
    match st.linksById.find? (fun p => p.1 == elevatorId) with
    | none => (st, [])
    | some entry =>
      let master := entry.2
      let stops := normalizeStops master.stops
      if stops = [] then (st, [])
      else
        let resolved := resolvedStops st stops
        if resolved = [] then (st, [])
        else
          let cleanedStops := resolved
          let pruned := cleanedStops.length ≠ stops.length
          let newMaster := { master with stops := cleanedStops }
          let st1 := if pruned then
              { st with linksById := st.linksById.map (fun p =>
                  if p.1 == elevatorId then (p.1, newMaster) else p) }
            else st
          let w1 : List WriteOp := if pruned then [WriteOp.pruneLinks elevatorId cleanedStops] else []
          let home := if homeUuid ≠ "" then homeUuid
            else if master.homeUuid ≠ "" then master.homeUuid
            else ((cleanedStops.head?.map (fun s => s.uuid)).getD "")
          let homeLabel := match cleanedStops.find? (fun s => s.uuid == home) with
            | some s => if s.label ≠ "" then s.label else "Return"
            | none => "Return"
          let allowed := cleanedStops.map (fun s => s.uuid)
          resolved.foldl (syncStopStep elevatorId master cleanedStops home homeLabel allowed) (st1, w1)

/-! ## Basic lemmas about trimming -/

theorem dropWhile_head_not (p : Char → Bool) :
    ∀ (l : List Char) (c : Char), (l.dropWhile p).head? = some c → p c = false := by
  intro l
  induction l with
  | nil => intro c hc; simp [List.dropWhile] at hc
  | cons x xs ih =>
    intro c hc
    by_cases h : p x
    · rw [List.dropWhile_cons_of_pos h] at hc
      exact ih c hc
    · rw [List.dropWhile_cons_of_neg h] at hc
      simp only [List.head?_cons, Option.some.injEq] at hc
      subst hc
      exact Bool.eq_false_iff.mpr h

theorem dropWhile_getLast (p : Char → Bool) :
    ∀ (l : List Char), l.dropWhile p ≠ [] → (l.dropWhile p).getLast? = l.getLast? := by
  intro l
  induction l with
  | nil => intro h; simp [List.dropWhile] at h
  | cons x xs ih =>
    intro h
    by_cases hp : p x
    · rw [List.dropWhile_cons_of_pos hp] at h ⊢
      have hxs : xs ≠ [] := by
        intro hx; rw [hx] at h; simp [List.dropWhile] at h
      cases xs with
      | nil => exact absurd rfl hxs
      | cons y ys => rw [ih h, List.getLast?_cons_cons]
    · rw [List.dropWhile_cons_of_neg hp]

theorem dropWhile_eq_self_of_head (p : Char → Bool) (l : List Char)
    (h : ∀ c, l.head? = some c → p c = false) : l.dropWhile p = l := by
  cases l with
  | nil => rfl
  | cons x xs =>
    have := h x rfl
    rw [List.dropWhile_cons_of_neg (by simp [this])]

theorem dropWhile_dropWhile (p : Char → Bool) (l : List Char) :
    (l.dropWhile p).dropWhile p = l.dropWhile p := by
  apply dropWhile_eq_self_of_head
  intro c hc
  exact dropWhile_head_not p l c hc

theorem jsTrimList_idem (cs : List Char) : jsTrimList (jsTrimList cs) = jsTrimList cs := by
  unfold jsTrimList
  have step1 : (((cs.dropWhile isJsWs).reverse.dropWhile isJsWs).reverse).dropWhile isJsWs
      = ((cs.dropWhile isJsWs).reverse.dropWhile isJsWs).reverse := by
    apply dropWhile_eq_self_of_head
    intro c hc
    rw [List.head?_reverse] at hc
    have hne : (cs.dropWhile isJsWs).reverse.dropWhile isJsWs ≠ [] := by
      intro h; rw [h] at hc; simp at hc
    rw [dropWhile_getLast isJsWs _ hne, List.getLast?_reverse] at hc
    exact dropWhile_head_not isJsWs cs c hc
  rw [step1, List.reverse_reverse, dropWhile_dropWhile]

theorem jsTrim_idem (s : String) : jsTrim (jsTrim s) = jsTrim s := by
  unfold jsTrim
  rw [List.toList_asString, jsTrimList_idem]

theorem jsTrim_asString_eq (cs : List Char) : jsTrim cs.asString = (jsTrimList cs).asString := by
  unfold jsTrim
  rw [List.toList_asString]

/-! ## Claim C1 -/

/-- C1: a call to `requestSetCurrentLevel(elevatorId, uuid)` with nonempty
trimmed arguments immediately writes the caller's optimistic cache entry
and queues a panel rerender; a GM caller additionally writes the persisted
`currentLevelByElevatorId` store and broadcasts `currentLevelChanged`
carrying that elevator id and uuid, while a non-GM caller leaves the
persisted store untouched and emits a `setCurrentLevel` request instead. -/
theorem claim_C1_requestSetCurrentLevel
    (elevatorId regionUuid requestId requester : String) (isGM : Bool) (s : GameState)
    (he : jsTrim elevatorId ≠ "") (hu : jsTrim regionUuid ≠ "") :
    (requestSetCurrentLevel elevatorId regionUuid isGM requestId requester s).1.cache
      = setA s.cache (jsTrim elevatorId) (jsTrim regionUuid) ∧
    (requestSetCurrentLevel elevatorId regionUuid isGM requestId requester s).1.rerender
      = insertOnce s.rerender (jsTrim elevatorId) ∧
    (isGM = true →
      (requestSetCurrentLevel elevatorId regionUuid isGM requestId requester s).1.world
        = setA s.world (jsTrim elevatorId) (jsTrim regionUuid) ∧
      (requestSetCurrentLevel elevatorId regionUuid isGM requestId requester s).2
        = [(Channel.unified,
            ⟨"currentLevelChanged", requestId, jsTrim elevatorId, jsTrim regionUuid, ""⟩),
           (Channel.legacyChanged,
            ⟨"currentLevelChanged", requestId, jsTrim elevatorId, jsTrim regionUuid, ""⟩)]) ∧
    (isGM = false →
      (requestSetCurrentLevel elevatorId regionUuid isGM requestId requester s).1.world
        = s.world ∧
      (requestSetCurrentLevel elevatorId regionUuid isGM requestId requester s).2
        = [(Channel.unified,
            ⟨"setCurrentLevel", requestId, jsTrim elevatorId, jsTrim regionUuid, requester⟩),
           (Channel.legacySet,
            ⟨"setCurrentLevel", requestId, jsTrim elevatorId, jsTrim regionUuid, requester⟩)]) := by
  unfold requestSetCurrentLevel queueRerenderOpenElevatorPanels
  simp only [jsTrim_idem]
  cases isGM <;> simp [he, hu]

/-- Closed instance of C1: the authority setting `elev1` to `stopB` on an
empty state yields the persisted store `{elev1: stopB}` and the broadcast. -/
theorem claim_C1_witness :
    (requestSetCurrentLevel "elev1" "stopB" true "r1" "gm" ⟨[], [], [], []⟩).1.world
      = [("elev1", "stopB")] ∧
    (requestSetCurrentLevel "elev1" "stopB" true "r1" "gm" ⟨[], [], [], []⟩).1.cache
      = [("elev1", "stopB")] := by
  have h := claim_C1_requestSetCurrentLevel "elev1" "stopB" "r1" "gm" true
    ⟨[], [], [], []⟩ (by decide) (by decide)
  refine ⟨?_, ?_⟩
  · rw [(h.2.2.1 rfl).1]; decide
  · rw [h.1]; decide

/-! ## Handler bookkeeping lemmas -/

theorem handleSocketMessage_seen (m : SocketMsg) (isGM : Bool) (selfId freshId : String)
    (now : Nat) (s : GameState) (ht : jsTrim m.mtype ≠ "") :
    (handleSocketMessage m isGM selfId freshId now s).state.seen
      = (wasSocketRequestSeen m.requestId now 8000 s.seen).2 := by
  simp only [handleSocketMessage, onSocketPing, onSetCurrentLevel, onGetCurrentLevel,
    onCurrentLevelChanged, ht, if_false]
  split_ifs <;> simp_all

theorem handleSocketMessage_dropped_iff (m : SocketMsg) (isGM : Bool) (selfId freshId : String)
    (now : Nat) (s : GameState) (ht : jsTrim m.mtype ≠ "") :
    (handleSocketMessage m isGM selfId freshId now s).droppedByDedup
      = (wasSocketRequestSeen m.requestId now 8000 s.seen).1 := by
  simp only [handleSocketMessage, onSocketPing, onSetCurrentLevel, onGetCurrentLevel,
    onCurrentLevelChanged, ht, if_false]
  split_ifs <;> simp_all

theorem handleSocketMessage_dup_drop (m : SocketMsg) (isGM : Bool) (selfId freshId : String)
    (now : Nat) (s : GameState) (ht : jsTrim m.mtype ≠ "")
    (hseen : (wasSocketRequestSeen m.requestId now 8000 s.seen).1 = true) :
    handleSocketMessage m isGM selfId freshId now s
      = ⟨{ s with seen := (wasSocketRequestSeen m.requestId now 8000 s.seen).2 }, [], true⟩ := by
  simp only [handleSocketMessage, onSocketPing, onSetCurrentLevel, onGetCurrentLevel,
    onCurrentLevelChanged, ht, if_false, hseen]
  simp

/-! ## Claim C10 -/

/-- C10: a socket message whose `requestId` trims to the empty string is
never recorded in the seen-id set and never treated as a duplicate:
`wasSocketRequestSeen` returns `false` and leaves the set untouched, and
the handler reaches dispatch (is not dedup-dropped) on every delivery. -/
theorem claim_C10_emptyRequestIdNotDeduped (m : SocketMsg) (isGM : Bool)
    (selfId freshId : String) (now : Nat) (s : GameState)
    (hr : jsTrim m.requestId = "") (ht : jsTrim m.mtype ≠ "") :
    wasSocketRequestSeen m.requestId now 8000 s.seen = (false, s.seen) ∧
    (handleSocketMessage m isGM selfId freshId now s).droppedByDedup = false ∧
    (handleSocketMessage m isGM selfId freshId now s).state.seen = s.seen := by
  have hw : wasSocketRequestSeen m.requestId now 8000 s.seen = (false, s.seen) := by
    simp [wasSocketRequestSeen, hr]
  refine ⟨hw, ?_, ?_⟩
  · rw [handleSocketMessage_dropped_iff m isGM selfId freshId now s ht, hw]
  · rw [handleSocketMessage_seen m isGM selfId freshId now s ht, hw]

/-- Closed instance of C10: a `currentLevelChanged` message with a
whitespace-only request id is processed (not dropped) and records
nothing, even on a state that already saw many ids. -/
theorem claim_C10_witness :
    wasSocketRequestSeen "  " 5000 8000 [("a", 1000), ("b", 4000)] = (false, [("a", 1000), ("b", 4000)]) ∧
    (handleSocketMessage ⟨"currentLevelChanged", "  ", "e", "u", ""⟩ false "p1" "f1" 5000
        ⟨[], [], [], [("a", 1000), ("b", 4000)]⟩).droppedByDedup = false := by
  have h := claim_C10_emptyRequestIdNotDeduped ⟨"currentLevelChanged", "  ", "e", "u", ""⟩
    false "p1" "f1" 5000 ⟨[], [], [], [("a", 1000), ("b", 4000)]⟩ (by decide) (by decide)
  exact ⟨h.1, h.2.1⟩

/-! ## Claim C2 -/

/-- C2: two socket messages delivered with the same nonempty trimmed
request id within the deduplication window are processed exactly once
combined.  With the id fresh at the first delivery, the first run is not
dedup-dropped; the second run (within 8000 ms) is dropped before any
state change: it emits nothing and leaves the cache, the persisted store
and the rerender queue exactly as the first run left them, touching only
the expiry cleanup of the seen-id set. -/
theorem claim_C2_dedupWindow
    (m1 m2 : SocketMsg) (isGM1 isGM2 : Bool) (self1 self2 fresh1 fresh2 : String)
    (now1 now2 : Nat) (s : GameState)
    (ht1 : jsTrim m1.mtype ≠ "") (ht2 : jsTrim m2.mtype ≠ "")
    (hid : jsTrim m1.requestId ≠ "")
    (hsame : jsTrim m2.requestId = jsTrim m1.requestId)
    (hfresh : (cleanupSeen now1 8000 s.seen).find? (fun p => p.1 == jsTrim m1.requestId) = none)
    (hwin : now2 - now1 ≤ 8000) :
    (handleSocketMessage m1 isGM1 self1 fresh1 now1 s).droppedByDedup = false ∧
    handleSocketMessage m2 isGM2 self2 fresh2 now2
        (handleSocketMessage m1 isGM1 self1 fresh1 now1 s).state
      = ⟨{ (handleSocketMessage m1 isGM1 self1 fresh1 now1 s).state with
             seen := cleanupSeen now2 8000
               (handleSocketMessage m1 isGM1 self1 fresh1 now1 s).state.seen }, [], true⟩ := by
  have hw1 : wasSocketRequestSeen m1.requestId now1 8000 s.seen
      = (false, cleanupSeen now1 8000 s.seen ++ [(jsTrim m1.requestId, now1)]) := by
    simp only [wasSocketRequestSeen, hid, if_neg hid, hfresh]
    simp
  have hseen1 : (handleSocketMessage m1 isGM1 self1 fresh1 now1 s).state.seen
      = cleanupSeen now1 8000 s.seen ++ [(jsTrim m1.requestId, now1)] := by
    rw [handleSocketMessage_seen m1 isGM1 self1 fresh1 now1 s ht1, hw1]
  have hmem : ((jsTrim m1.requestId, now1) : String × Nat)
      ∈ cleanupSeen now2 8000 ((handleSocketMessage m1 isGM1 self1 fresh1 now1 s).state.seen) := by
    rw [hseen1]
    unfold cleanupSeen
    rw [List.mem_filter]
    constructor
    · exact List.mem_append_right _ (List.mem_singleton.mpr rfl)
    · simp
      omega
  have hw2 : (wasSocketRequestSeen m2.requestId now2 8000
        (handleSocketMessage m1 isGM1 self1 fresh1 now1 s).state.seen).1 = true := by
    simp only [wasSocketRequestSeen, hsame, if_neg hid]
    have : ((cleanupSeen now2 8000 ((handleSocketMessage m1 isGM1 self1 fresh1 now1 s).state.seen)).find?
        (fun p => p.1 == jsTrim m1.requestId)).isSome := by
      rw [List.find?_isSome]
      exact ⟨(jsTrim m1.requestId, now1), hmem, by simp⟩
    simp [this]
  refine ⟨?_, ?_⟩
  · rw [handleSocketMessage_dropped_iff m1 isGM1 self1 fresh1 now1 s ht1, hw1]
  · rw [handleSocketMessage_dup_drop m2 isGM2 self2 fresh2 now2 _ ht2 hw2]
    have : (wasSocketRequestSeen m2.requestId now2 8000
        (handleSocketMessage m1 isGM1 self1 fresh1 now1 s).state.seen).2
        = cleanupSeen now2 8000 ((handleSocketMessage m1 isGM1 self1 fresh1 now1 s).state.seen) := by
      simp only [wasSocketRequestSeen, hsame, if_neg hid]
      have : ((cleanupSeen now2 8000 ((handleSocketMessage m1 isGM1 self1 fresh1 now1 s).state.seen)).find?
          (fun p => p.1 == jsTrim m1.requestId)).isSome := by
        rw [List.find?_isSome]
        exact ⟨(jsTrim m1.requestId, now1), hmem, by simp⟩
      simp [this]
    rw [this]

/-- Closed instance of C2: the same logical `currentLevelChanged` message
arriving on the unified channel and again (200 ms later) via the legacy
channel shim is processed once; the second delivery is dropped with no
state change. -/
theorem claim_C2_witness :
    (handleSocketMessage ⟨"currentLevelChanged", "rq7", "e", "u", ""⟩ false "p" "f" 1000
        ⟨[], [], [], []⟩).droppedByDedup = false ∧
    handleSocketMessage ⟨"currentLevelChanged", "rq7", "e", "u", ""⟩ false "p" "f" 1200
        (handleSocketMessage ⟨"currentLevelChanged", "rq7", "e", "u", ""⟩ false "p" "f" 1000
          ⟨[], [], [], []⟩).state
      = ⟨{ (handleSocketMessage ⟨"currentLevelChanged", "rq7", "e", "u", ""⟩ false "p" "f" 1000
            ⟨[], [], [], []⟩).state with
             seen := cleanupSeen 1200 8000
               (handleSocketMessage ⟨"currentLevelChanged", "rq7", "e", "u", ""⟩ false "p" "f" 1000
                 ⟨[], [], [], []⟩).state.seen }, [], true⟩ :=
  claim_C2_dedupWindow ⟨"currentLevelChanged", "rq7", "e", "u", ""⟩
    ⟨"currentLevelChanged", "rq7", "e", "u", ""⟩ false false "p" "p" "f" "f" 1000 1200
    ⟨[], [], [], []⟩ (by decide) (by decide) (by decide) (by decide) (by decide) (by decide)


/-! ## Association-list lemmas -/

theorem find?_map_setA_ne (qs : List (String × String)) (k v k' : String) (h : k' ≠ k) :
    (qs.map (fun q => if q.1 == k then (k, v) else q)).find? (fun p => p.1 == k')
      = qs.find? (fun p => p.1 == k') := by
  have hkk : (k == k') = false := beq_false_of_ne (fun e => h e.symm)
  induction qs with
  | nil => rfl
  | cons q rest ih =>
    rw [List.map_cons]
    by_cases hq : (q.1 == k) = true
    · have hqk : q.1 = k := by simpa using hq
      have h2 : (q.1 == k') = false := by rw [hqk]; exact hkk
      rw [show (if q.1 == k then (k, v) else q) = (k, v) from by simp [hq]]
      rw [List.find?_cons_of_neg _ (by simp [hkk]), List.find?_cons_of_neg _ (by simp [h2]), ih]
    · rw [show (if q.1 == k then (k, v) else q) = q from by simp [hq]]
      by_cases hq' : (q.1 == k') = true
      · rw [List.find?_cons_of_pos (p := fun r : String × String => r.1 == k') _ hq',
          List.find?_cons_of_pos (p := fun r : String × String => r.1 == k') _ hq']
      · rw [List.find?_cons_of_neg (p := fun r : String × String => r.1 == k') _ hq',
          List.find?_cons_of_neg (p := fun r : String × String => r.1 == k') _ hq', ih]

theorem find?_map_setA_self (qs : List (String × String)) (k v : String)
    (hany : qs.any (fun p => p.1 == k) = true) :
    (qs.map (fun q => if q.1 == k then (k, v) else q)).find? (fun p => p.1 == k)
      = some (k, v) := by
  induction qs with
  | nil => simp at hany
  | cons q rest ih =>
    rw [List.map_cons]
    by_cases hq : (q.1 == k) = true
    · rw [show (if q.1 == k then (k, v) else q) = (k, v) from by simp [hq]]
      exact List.find?_cons_of_pos _ (by simp)
    · rw [show (if q.1 == k then (k, v) else q) = q from by simp [hq]]
      rw [List.find?_cons_of_neg (p := fun r : String × String => r.1 == k) _ hq]
      apply ih
      rw [List.any_cons] at hany
      simpa [hq] using hany

theorem getA_setA_self (m : List (String × String)) (k v : String) :
    getA (setA m k v) k = v := by
  unfold getA setA
  by_cases hany : m.any (fun p => p.1 == k) = true
  · rw [if_pos hany, find?_map_setA_self m k v hany]
    rfl
  · rw [if_neg hany, List.find?_append]
    have hnone : m.find? (fun p => p.1 == k) = none := by
      rw [List.find?_eq_none]
      intro x hx hpx
      exact hany (List.any_eq_true.mpr ⟨x, hx, hpx⟩)
    rw [hnone]
    simp

theorem getA_setA_ne (m : List (String × String)) (k v k' : String) (h : k' ≠ k) :
    getA (setA m k v) k' = getA m k' := by
  unfold getA setA
  by_cases hany : m.any (fun p => p.1 == k) = true
  · rw [if_pos hany, find?_map_setA_ne m k v k' h]
  · rw [if_neg hany, List.find?_append]
    have hone : ([(k, v)] : List (String × String)).find? (fun p => p.1 == k') = none := by
      simp [beq_false_of_ne (fun e => h e.symm)]
    rw [hone]
    cases m.find? (fun p => p.1 == k') <;> simp

/-! ## Claim C8 -/

/-- C8: on a `currentLevelChanged` message with nonempty trimmed elevator
id and region uuid that is not dedup-dropped, any client (GM or not)
updates exactly its optimistic cache entry for that elevator id and
queues a coalesced rerender for it; the persisted store, every other
cache entry, and the rerender queue apart from that id are unchanged,
nothing is emitted, and the only other touched state is the dedup
bookkeeping of the seen-id set. -/
theorem claim_C8_currentLevelChangedFrame (m : SocketMsg) (isGM : Bool)
    (selfId freshId : String) (now : Nat) (s : GameState)
    (hm : jsTrim m.mtype = "currentLevelChanged")
    (he : jsTrim m.elevatorId ≠ "") (hu : jsTrim m.regionUuid ≠ "")
    (hfresh : (wasSocketRequestSeen m.requestId now 8000 s.seen).1 = false) :
    (handleSocketMessage m isGM selfId freshId now s).state.cache
      = setA s.cache (jsTrim m.elevatorId) (jsTrim m.regionUuid) ∧
    getA (handleSocketMessage m isGM selfId freshId now s).state.cache (jsTrim m.elevatorId)
      = jsTrim m.regionUuid ∧
    (∀ k, k ≠ jsTrim m.elevatorId →
      getA (handleSocketMessage m isGM selfId freshId now s).state.cache k = getA s.cache k) ∧
    (handleSocketMessage m isGM selfId freshId now s).state.rerender
      = insertOnce s.rerender (jsTrim m.elevatorId) ∧
    (handleSocketMessage m isGM selfId freshId now s).state.world = s.world ∧
    (handleSocketMessage m isGM selfId freshId now s).emits = [] ∧
    (handleSocketMessage m isGM selfId freshId now s).state.seen
      = (wasSocketRequestSeen m.requestId now 8000 s.seen).2 := by
  have ht : jsTrim m.mtype ≠ "" := by rw [hm]; decide
  have hred : handleSocketMessage m isGM selfId freshId now s
      = ⟨onCurrentLevelChanged m { s with seen := (wasSocketRequestSeen m.requestId now 8000 s.seen).2 },
         [], false⟩ := by
    simp only [handleSocketMessage, hm, hfresh]
    rw [if_neg Bool.false_ne_true,
      if_neg (show ¬("currentLevelChanged" = "socketPing") by decide),
      if_neg (show ¬("currentLevelChanged" = "socketPong") by decide),
      if_neg (show ¬("currentLevelChanged" = "setCurrentLevel") by decide),
      if_neg (show ¬("currentLevelChanged" = "getCurrentLevel") by decide),
      if_pos trivial, if_neg (show ¬("currentLevelChanged" = "") by decide)]
  have hbr : onCurrentLevelChanged m { s with seen := (wasSocketRequestSeen m.requestId now 8000 s.seen).2 }
      = { s with cache := setA s.cache (jsTrim m.elevatorId) (jsTrim m.regionUuid),
                 rerender := insertOnce s.rerender (jsTrim m.elevatorId),
                 seen := (wasSocketRequestSeen m.requestId now 8000 s.seen).2 } := by
    simp only [onCurrentLevelChanged, queueRerenderOpenElevatorPanels, jsTrim_idem, he, hu]
    simp [he, hu]
  rw [hred, hbr]
  refine ⟨rfl, ?_, ?_, rfl, rfl, rfl, rfl⟩
  · exact getA_setA_self s.cache (jsTrim m.elevatorId) (jsTrim m.regionUuid)
  · intro k hk
    exact getA_setA_ne s.cache (jsTrim m.elevatorId) (jsTrim m.regionUuid) k hk

/-- Closed instance of C8: a GM client receiving `currentLevelChanged`
for `e2` updates only the cache entry for `e2`, leaving the persisted
store and the cache entry for `e1` untouched. -/
theorem claim_C8_witness :
    (handleSocketMessage ⟨"currentLevelChanged", "r9", "e2", "u9", ""⟩ true "gm" "f" 50
        ⟨[("e1", "u1")], [("e1", "u1")], [], []⟩).state.world = [("e1", "u1")] ∧
    getA (handleSocketMessage ⟨"currentLevelChanged", "r9", "e2", "u9", ""⟩ true "gm" "f" 50
        ⟨[("e1", "u1")], [("e1", "u1")], [], []⟩).state.cache "e2" = "u9" ∧
    getA (handleSocketMessage ⟨"currentLevelChanged", "r9", "e2", "u9", ""⟩ true "gm" "f" 50
        ⟨[("e1", "u1")], [("e1", "u1")], [], []⟩).state.cache "e1" = "u1" := by
  have h := claim_C8_currentLevelChangedFrame ⟨"currentLevelChanged", "r9", "e2", "u9", ""⟩
    true "gm" "f" 50 ⟨[("e1", "u1")], [("e1", "u1")], [], []⟩
    (by decide) (by decide) (by decide) (by decide)
  refine ⟨h.2.2.2.2.1, ?_, ?_⟩
  · have := h.2.1
    simpa using this
  · have := h.2.2.1 "e1" (by decide)
    simpa using this

/-! ## Claim C3 -/

theorem getUser_self (users : List ElevUser) (u : ElevUser)
    (hnd : (users.map (fun v => v.id)).Nodup) (hu : u ∈ users) :
    getUser users u.id = some u := by
  induction users with
  | nil => simp at hu
  | cons v vs ih =>
    rcases List.mem_cons.mp hu with h | h
    · subst h
      simp [getUser]
    · have hvne : v.id ≠ u.id := by
        intro he
        have : u.id ∈ vs.map (fun w => w.id) := List.mem_map.mpr ⟨u, h, rfl⟩
        rw [List.map_cons, List.nodup_cons] at hnd
        exact hnd.1 (he ▸ this)
      have hnd' : (vs.map (fun w => w.id)).Nodup := by
        rw [List.map_cons, List.nodup_cons] at hnd
        exact hnd.2
      unfold getUser at ih ⊢
      rw [List.find?_cons_of_neg _ (by simpa using hvne)]
      exact ih hnd' h

theorem filter_map_id_lookup (users : List ElevUser)
    (g F : ElevUser → Bool) (P : String → Bool)
    (hP : ∀ u ∈ users, P u.id = F u) :
    ((users.filter g).map (fun u => u.id)).filter P
      = (users.filter (fun u => g u && F u)).map (fun u => u.id) := by
  rw [List.filter_map]
  have h1 : (users.filter g).filter (P ∘ fun u => u.id)
      = users.filter (fun u => g u && F u) := by
    rw [List.filter_filter]
    apply List.filter_congr
    intro u hu
    show ((P u.id) && g u) = (g u && F u)
    rw [hP u hu, Bool.and_comm]
  rw [h1]

/-- C3: per-token approval routing prefers all online non-GM owners of
the token's actor (routed as "owner"); failing that, all online GMs;
failing that, all GMs regardless of presence (both routed as "gm").
Owners are the users whose ownership level on the actor reaches OWNER. -/
theorem claim_C3_approvalRouting (users : List ElevUser) (tok : TokenDoc) (a : ActorDoc)
    (ha : tok.actor = some a)
    (hnd : (users.map (fun v => v.id)).Nodup) :
    (users.filter (fun u => (decide (ownLevel a u.id ≥ 3) && u.active) && !u.isGM) ≠ [] →
      computeApprovalRecipientsForToken users tok
        = ((users.filter (fun u => (decide (ownLevel a u.id ≥ 3) && u.active) && !u.isGM)).map
            (fun u => u.id), "owner")) ∧
    (users.filter (fun u => (decide (ownLevel a u.id ≥ 3) && u.active) && !u.isGM) = [] →
      users.filter (fun u => u.isGM && u.active) ≠ [] →
      computeApprovalRecipientsForToken users tok
        = ((users.filter (fun u => u.isGM && u.active)).map (fun u => u.id), "gm")) ∧
    (users.filter (fun u => (decide (ownLevel a u.id ≥ 3) && u.active) && !u.isGM) = [] →
      users.filter (fun u => u.isGM && u.active) = [] →
      computeApprovalRecipientsForToken users tok
        = ((users.filter (fun u => u.isGM)).map (fun u => u.id), "gm")) := by
  have howner : getActorOwnerUserIds users tok.actor
      = (users.filter (fun u => decide (ownLevel a u.id ≥ 3))).map (fun u => u.id) := by
    rw [ha]
    rfl
  have honline : ((users.filter (fun u => decide (ownLevel a u.id ≥ 3))).map (fun u => u.id)).filter
        (fun uid => (((getUser users uid).map (fun u => u.active)).getD false))
      = (users.filter (fun u => decide (ownLevel a u.id ≥ 3) && u.active)).map (fun u => u.id) := by
    apply filter_map_id_lookup users
    intro u hu
    rw [getUser_self users u hnd hu]
    rfl
  have hnongm : ((users.filter (fun u => decide (ownLevel a u.id ≥ 3) && u.active)).map
        (fun u => u.id)).filter
        (fun uid => !(((getUser users uid).map (fun u => u.isGM)).getD false))
      = (users.filter (fun u => (decide (ownLevel a u.id ≥ 3) && u.active) && !u.isGM)).map
          (fun u => u.id) := by
    apply filter_map_id_lookup users
    intro u hu
    rw [getUser_self users u hnd hu]
    rfl
  have hgmon : getGMUserIds users true
      = (users.filter (fun u => u.isGM && u.active)).map (fun u => u.id) := rfl
  have hgmall : getGMUserIds users false
      = (users.filter (fun u => u.isGM)).map (fun u => u.id) := by
    unfold getGMUserIds
    rw [List.filter_congr (fun u _ => by simp : ∀ u ∈ users, (u.isGM && (!false || u.active)) = u.isGM)]
  have hmapne : ∀ (l : List ElevUser), l ≠ [] → l.map (fun u => u.id) ≠ [] := by
    intro l hl
    simpa using hl
  have hmapeq : ∀ (l : List ElevUser), l = [] → l.map (fun u => u.id) = [] := by
    intro l hl
    rw [hl]
    rfl
  refine ⟨?_, ?_, ?_⟩
  · intro hne
    simp only [computeApprovalRecipientsForToken]
    rw [howner, honline, hnongm]
    rw [if_pos (hmapne _ hne)]
  · intro heq hne
    simp only [computeApprovalRecipientsForToken]
    rw [howner, honline, hnongm]
    rw [if_neg (by simpa using hmapeq _ heq), hgmon]
    rw [if_pos (hmapne _ hne)]
  · intro heq heq2
    simp only [computeApprovalRecipientsForToken]
    rw [howner, honline, hnongm]
    rw [if_neg (by simpa using hmapeq _ heq), hgmon]
    rw [if_neg (by simpa using hmapeq _ heq2), hgmall]

/-- Closed instance of C3: a token with one online non-GM owner and one
offline GM routes to the owner; with the owner offline and the GM online
it routes to the GM. -/
theorem claim_C3_witness :
    computeApprovalRecipientsForToken
        [⟨"p1", false, true⟩, ⟨"gm1", true, false⟩] ⟨some ⟨[("p1", 3)], 0⟩⟩
      = (["p1"], "owner") ∧
    computeApprovalRecipientsForToken
        [⟨"p1", false, false⟩, ⟨"gm1", true, true⟩] ⟨some ⟨[("p1", 3)], 0⟩⟩
      = (["gm1"], "gm") := by
  constructor
  · have h := claim_C3_approvalRouting [⟨"p1", false, true⟩, ⟨"gm1", true, false⟩]
      ⟨some ⟨[("p1", 3)], 0⟩⟩ ⟨[("p1", 3)], 0⟩ rfl (by decide)
    exact (h.1 (by decide)).trans (by decide)
  · have h := claim_C3_approvalRouting [⟨"p1", false, false⟩, ⟨"gm1", true, true⟩]
      ⟨some ⟨[("p1", 3)], 0⟩⟩ ⟨[("p1", 3)], 0⟩ rfl (by decide)
    exact ((h.2.1 (by decide)) (by decide)).trans (by decide)

/-! ## Claim C5 -/

theorem approveTokenStep_fold_owned (w : ApprovalWorld) (approverId : String)
    (l : List String) (acc : List String)
    (hacc : ∀ u ∈ acc, ∃ td, getToken w u = some td ∧
      isTokenOwnedByUser w.users td approverId = true) :
    ∀ u ∈ l.foldl (approveTokenStep w approverId false) acc, ∃ td, getToken w u = some td ∧
      isTokenOwnedByUser w.users td approverId = true := by
  induction l generalizing acc with
  | nil => exact hacc
  | cons x xs ih =>
    rw [List.foldl_cons]
    apply ih
    intro u hu
    rcases htok : getToken w x with _ | td
    · simp only [approveTokenStep, htok] at hu
      exact hacc u hu
    · simp only [approveTokenStep, htok] at hu
      by_cases hown : isTokenOwnedByUser w.users td approverId = true
      · rw [if_neg (fun hc => hc.2 hown)] at hu
        by_cases htel : w.teleportOk x = true
        · rw [if_pos htel] at hu
          rcases List.mem_append.mp hu with h | h
          · exact hacc u h
          · rcases List.mem_singleton.mp h with rfl
            exact ⟨td, htok, hown⟩
        · rw [if_neg htel] at hu
          exact hacc u hu
      · rw [if_pos ⟨by simp, hown⟩] at hu
        exact hacc u hu

/-- C5: when a non-GM user approves an approval chat card (with a valid
destination region), only subject tokens that user owns are teleported;
if nothing was teleported, a local warning is raised and the message is
kept (and neither the current-level update nor the requester notice is
attempted); if at least one token moved, the current-level update and the
requester notice are attempted exactly per the payload's elevator id and
requester, and the approval message is deleted. -/
theorem claim_C5_nonGmApproval (p : ApprovalPayload) (w : ApprovalWorld)
    (approverId : String) (hdest : w.destIsRegion = true) :
    (∀ u ∈ (approveClick p w approverId false).teleported,
      ∃ td, getToken w u = some td ∧ isTokenOwnedByUser w.users td approverId = true) ∧
    ((approveClick p w approverId false).teleported = [] →
      (approveClick p w approverId false).warned = true ∧
      (approveClick p w approverId false).messageDeleted = false ∧
      (approveClick p w approverId false).requestedSetLevel = none ∧
      (approveClick p w approverId false).notifiedRequester = none) ∧
    ((approveClick p w approverId false).teleported ≠ [] →
      (approveClick p w approverId false).messageDeleted = true ∧
      (approveClick p w approverId false).requestedSetLevel
        = (if jsTrim p.elevatorId ≠ "" then some (jsTrim p.elevatorId, p.destUUID) else none) ∧
      (approveClick p w approverId false).notifiedRequester
        = (if jsTrim p.requester ≠ "" then some (jsTrim p.requester) else none)) := by
  unfold approveClick
  rw [if_neg (by simp [hdest])]
  by_cases happ : (approvalCandidates p w).foldl (approveTokenStep w approverId false) [] = []
  · rw [if_pos happ]
    refine ⟨?_, fun _ => ⟨rfl, rfl, rfl, rfl⟩, fun hne => absurd rfl hne⟩
    intro u hu
    simp at hu
  · rw [if_neg happ]
    refine ⟨?_, fun he => absurd he happ, fun _ => ⟨rfl, rfl, rfl⟩⟩
    intro u hu
    exact approveTokenStep_fold_owned w approverId (approvalCandidates p w) [] (by simp) u hu

/-- Closed instance of C5: a non-GM approver who owns token `t1` but not
`t2` approves a card listing both; only `t1` moves and the message is
deleted, and on a second card whose tokens the approver does not own at
all, nothing moves, a warning is raised and the message survives. -/
theorem claim_C5_witness :
    (approveClick ⟨"dest", "e1", "req", ["t1", "t2"], "", ""⟩
        ⟨[⟨"appr", false, true⟩, ⟨"other", false, true⟩], true,
         [("t1", ⟨some ⟨[("appr", 3)], 0⟩⟩), ("t2", ⟨some ⟨[("other", 3)], 0⟩⟩)],
         false, [], fun _ => true⟩ "appr" false).teleported = ["t1"] ∧
    (approveClick ⟨"dest", "e1", "req", ["t1", "t2"], "", ""⟩
        ⟨[⟨"appr", false, true⟩, ⟨"other", false, true⟩], true,
         [("t1", ⟨some ⟨[("appr", 3)], 0⟩⟩), ("t2", ⟨some ⟨[("other", 3)], 0⟩⟩)],
         false, [], fun _ => true⟩ "appr" false).messageDeleted = true ∧
    (approveClick ⟨"dest", "e1", "req", ["t2"], "", ""⟩
        ⟨[⟨"appr", false, true⟩, ⟨"other", false, true⟩], true,
         [("t1", ⟨some ⟨[("appr", 3)], 0⟩⟩), ("t2", ⟨some ⟨[("other", 3)], 0⟩⟩)],
         false, [], fun _ => true⟩ "appr" false).warned = true ∧
    (approveClick ⟨"dest", "e1", "req", ["t2"], "", ""⟩
        ⟨[⟨"appr", false, true⟩, ⟨"other", false, true⟩], true,
         [("t1", ⟨some ⟨[("appr", 3)], 0⟩⟩), ("t2", ⟨some ⟨[("other", 3)], 0⟩⟩)],
         false, [], fun _ => true⟩ "appr" false).messageDeleted = false := by
  have h1 := claim_C5_nonGmApproval ⟨"dest", "e1", "req", ["t1", "t2"], "", ""⟩
    ⟨[⟨"appr", false, true⟩, ⟨"other", false, true⟩], true,
     [("t1", ⟨some ⟨[("appr", 3)], 0⟩⟩), ("t2", ⟨some ⟨[("other", 3)], 0⟩⟩)],
     false, [], fun _ => true⟩ "appr" rfl
  have h2 := claim_C5_nonGmApproval ⟨"dest", "e1", "req", ["t2"], "", ""⟩
    ⟨[⟨"appr", false, true⟩, ⟨"other", false, true⟩], true,
     [("t1", ⟨some ⟨[("appr", 3)], 0⟩⟩), ("t2", ⟨some ⟨[("other", 3)], 0⟩⟩)],
     false, [], fun _ => true⟩ "appr" rfl
  refine ⟨by rfl, (h1.2.2 (by decide)).1, (h2.2.1 (by rfl)).1, (h2.2.1 (by rfl)).2.1⟩

/-! ## Sync-loop machinery -/

/-- The per-document transformation one iteration of the sync loop
performs on its stop's document. -/
def syncDocTransform (elevatorId : String) (master : MasterEntry) (cleanedStops : List Stop)
    (home homeLabel : String) (allowed : List String) (r : Stop) (d : RegionDoc) : RegionDoc :=
  { d with
    name := desiredName elevatorId cleanedStops r.label d.name r.uuid
    flags := desiredFlags elevatorId master cleanedStops home homeLabel r.uuid d.flags
    behaviors := (restrictTeleportBehaviorsToNetwork r.uuid d.behaviors allowed home).1 }

theorem syncDocTransform_uuid (elevatorId : String) (master : MasterEntry)
    (cleanedStops : List Stop) (home homeLabel : String) (allowed : List String)
    (r : Stop) (d : RegionDoc) :
    (syncDocTransform elevatorId master cleanedStops home homeLabel allowed r d).uuid = d.uuid :=
  rfl

theorem findDoc_some_uuid (st : SyncState) (u : String) (d : RegionDoc)
    (h : findDoc st u = some d) : d.uuid = u := by
  have := List.find?_some h
  simpa using this

theorem findDoc_self (st : SyncState) (d : RegionDoc)
    (hnd : (st.docs.map (fun d => d.uuid)).Nodup) (hd : d ∈ st.docs) :
    findDoc st d.uuid = some d := by
  unfold findDoc
  rcases st with ⟨lb, docs⟩
  simp only at hnd hd ⊢
  induction docs with
  | nil => simp at hd
  | cons v vs ih =>
    rcases List.mem_cons.mp hd with h | h
    · subst h
      rw [List.find?_cons_of_pos _ (by simp)]
    · have hvne : v.uuid ≠ d.uuid := by
        intro he
        have : d.uuid ∈ vs.map (fun w => w.uuid) := List.mem_map.mpr ⟨d, h, rfl⟩
        rw [List.map_cons, List.nodup_cons] at hnd
        exact hnd.1 (he ▸ this)
      have hnd' : (vs.map (fun w => w.uuid)).Nodup := by
        rw [List.map_cons, List.nodup_cons] at hnd
        exact hnd.2
      rw [List.find?_cons_of_neg _ (by simpa using hvne)]
      exact ih hnd' h

theorem findDoc_none (st : SyncState) (u : String) (h : findDoc st u = none) :
    ∀ d ∈ st.docs, d.uuid ≠ u := by
  intro d hd
  have := List.find?_eq_none.mp h d hd
  simpa using this

theorem findDoc_map (lb : List (String × MasterEntry)) (docs : List RegionDoc)
    (g : RegionDoc → RegionDoc) (hg : ∀ d, (g d).uuid = d.uuid) (u : String) :
    findDoc ⟨lb, docs.map g⟩ u = (findDoc ⟨lb, docs⟩ u).map g := by
  unfold findDoc
  simp only [List.find?_map]
  have hfe : ((fun d : RegionDoc => d.uuid == u) ∘ g) = (fun d : RegionDoc => d.uuid == u) := by
    funext d
    simp [Function.comp, hg d]
  rw [hfe]

theorem find?_stop_self (l : List Stop) (r : Stop)
    (hnd : (l.map (fun s => s.uuid)).Nodup) (hr : r ∈ l) :
    l.find? (fun s => s.uuid == r.uuid) = some r := by
  induction l with
  | nil => simp at hr
  | cons v vs ih =>
    rcases List.mem_cons.mp hr with h | h
    · subst h
      rw [List.find?_cons_of_pos _ (by simp)]
    · have hvne : v.uuid ≠ r.uuid := by
        intro he
        have : r.uuid ∈ vs.map (fun w => w.uuid) := List.mem_map.mpr ⟨r, h, rfl⟩
        rw [List.map_cons, List.nodup_cons] at hnd
        exact hnd.1 (he ▸ this)
      have hnd' : (vs.map (fun w => w.uuid)).Nodup := by
        rw [List.map_cons, List.nodup_cons] at hnd
        exact hnd.2
      rw [List.find?_cons_of_neg _ (by simpa using hvne)]
      exact ih hnd' h

theorem findIdx_stop_get (l : List Stop) (i : Nat) (hi : i < l.length)
    (hnd : (l.map (fun s => s.uuid)).Nodup) :
    l.findIdx (fun s => s.uuid == (l.get ⟨i, hi⟩).uuid) = i := by
  induction l generalizing i with
  | nil => simp at hi
  | cons v vs ih =>
    cases i with
    | zero =>
      rw [List.findIdx_cons]
      simp
    | succ j =>
      have hj : j < vs.length := by simpa using hi
      have hget : (v :: vs).get ⟨j + 1, hi⟩ = vs.get ⟨j, hj⟩ := rfl
      rw [hget, List.findIdx_cons]
      have hvne : (v.uuid == (vs.get ⟨j, hj⟩).uuid) = false := by
        have hmem : (vs.get ⟨j, hj⟩).uuid ∈ vs.map (fun w => w.uuid) :=
          List.mem_map.mpr ⟨vs.get ⟨j, hj⟩, List.get_mem vs j hj, rfl⟩
        rw [List.map_cons, List.nodup_cons] at hnd
        exact beq_false_of_ne (fun he => hnd.1 (he ▸ hmem))
      rw [hvne]
      simp only [cond_false]
      have hnd' : (vs.map (fun w => w.uuid)).Nodup := by
        rw [List.map_cons, List.nodup_cons] at hnd
        exact hnd.2
      rw [ih j hj hnd']

theorem syncFold_docs (elevatorId : String) (master : MasterEntry) (cleanedStops : List Stop)
    (home homeLabel : String) (allowed : List String) :
    ∀ (l : List Stop) (st : SyncState) (w : List WriteOp),
    (l.map (fun r => r.uuid)).Nodup →
    (st.docs.map (fun d => d.uuid)).Nodup →
    (l.foldl (syncStopStep elevatorId master cleanedStops home homeLabel allowed) (st, w)).1
      = { st with docs := st.docs.map (fun d =>
            match l.find? (fun r => r.uuid == d.uuid) with
            | none => d
            | some r => syncDocTransform elevatorId master cleanedStops home homeLabel allowed r d) } := by
  intro l
  induction l with
  | nil =>
    intro st w _ _
    simp only [List.foldl_nil, List.find?_nil]
    rw [List.map_id']
  | cons r rest ih =>
    intro st w hnd hdocs
    rw [List.map_cons, List.nodup_cons] at hnd
    rw [List.foldl_cons]
    rcases hfd : findDoc st r.uuid with _ | doc
    · have hstep : syncStopStep elevatorId master cleanedStops home homeLabel allowed (st, w) r
          = (st, w) := by
        simp only [syncStopStep, hfd]
      rw [hstep, ih st w hnd.2 hdocs]
      congr 1
      apply List.map_congr_left
      intro d hd
      have hne := findDoc_none st r.uuid hfd d hd
      rw [List.find?_cons_of_neg _ (by simpa using fun he => hne he.symm)]
    · have hdocuuid : doc.uuid = r.uuid := findDoc_some_uuid st r.uuid doc hfd
      have hstep1 : (syncStopStep elevatorId master cleanedStops home homeLabel allowed (st, w) r).1
          = updateDoc st r.uuid (fun d =>
              { d with
                name := desiredName elevatorId cleanedStops r.label doc.name r.uuid
                flags := desiredFlags elevatorId master cleanedStops home homeLabel r.uuid doc.flags
                behaviors := (restrictTeleportBehaviorsToNetwork r.uuid doc.behaviors allowed home).1 }) := by
        simp only [syncStopStep, hfd]
      have heta : syncStopStep elevatorId master cleanedStops home homeLabel allowed (st, w) r
          = ((syncStopStep elevatorId master cleanedStops home homeLabel allowed (st, w) r).1,
             (syncStopStep elevatorId master cleanedStops home homeLabel allowed (st, w) r).2) := rfl
      rw [heta, hstep1]
      have hpres : ∀ d : RegionDoc,
          ((fun d => if d.uuid == r.uuid then
              { d with
                name := desiredName elevatorId cleanedStops r.label doc.name r.uuid
                flags := desiredFlags elevatorId master cleanedStops home homeLabel r.uuid doc.flags
                behaviors := (restrictTeleportBehaviorsToNetwork r.uuid doc.behaviors allowed home).1 }
            else d) d).uuid = d.uuid := by
        intro d
        by_cases hdu : (d.uuid == r.uuid) = true
        · simp [hdu]
        · simp [hdu]
      have hdocs1 : ((updateDoc st r.uuid (fun d =>
          { d with
            name := desiredName elevatorId cleanedStops r.label doc.name r.uuid
            flags := desiredFlags elevatorId master cleanedStops home homeLabel r.uuid doc.flags
            behaviors := (restrictTeleportBehaviorsToNetwork r.uuid doc.behaviors allowed home).1 })).docs.map
            (fun d => d.uuid)).Nodup := by
        unfold updateDoc
        simp only [List.map_map]
        have : ((fun d : RegionDoc => d.uuid) ∘ (fun d => if d.uuid == r.uuid then
            { d with
              name := desiredName elevatorId cleanedStops r.label doc.name r.uuid
              flags := desiredFlags elevatorId master cleanedStops home homeLabel r.uuid doc.flags
              behaviors := (restrictTeleportBehaviorsToNetwork r.uuid doc.behaviors allowed home).1 }
            else d)) = (fun d : RegionDoc => d.uuid) := by
          funext d
          exact hpres d
        rw [this]
        exact hdocs
      rw [ih _ _ hnd.2 hdocs1]
      unfold updateDoc
      simp only [List.map_map]
      congr 1
      apply List.map_congr_left
      intro d hd
      simp only [Function.comp_apply]
      by_cases hdu : (d.uuid == r.uuid) = true
      · have hdr : d.uuid = r.uuid := by simpa using hdu
        have hdeq : doc = d := by
          have hself : findDoc st d.uuid = some d := findDoc_self st d hdocs hd
          rw [hdr] at hself
          exact Option.some.inj (hfd.symm.trans hself)
        subst hdeq
        rw [if_pos hdu]
        have hrnone : rest.find? (fun r' => r'.uuid == doc.uuid) = none := by
          rw [List.find?_eq_none]
          intro x hx
          simp only [beq_iff_eq]
          intro he
          exact hnd.1 (by
            rw [← hdocuuid]
            exact he ▸ List.mem_map.mpr ⟨x, hx, rfl⟩)
        have hrpos : (r.uuid == doc.uuid) = true := by
          simp [hdocuuid]
        dsimp only
        rw [hrnone, List.find?_cons_of_pos (p := fun s : Stop => s.uuid == doc.uuid) _ hrpos]
        rfl
      · rw [if_neg hdu]
        have hcons : (r.uuid == d.uuid) = false := by
          have : d.uuid ≠ r.uuid := by simpa using hdu
          exact beq_false_of_ne (fun he => this he.symm)
        rw [List.find?_cons_of_neg _ (by simp [hcons])]

theorem normalizeStopsAux_nodup (stops : List Stop) : ∀ (seen : List String),
    ((normalizeStopsAux seen stops).map (fun s => s.uuid)).Nodup ∧
    (∀ u ∈ (normalizeStopsAux seen stops).map (fun s => s.uuid), u ∉ seen) := by
  induction stops with
  | nil =>
    intro seen
    simp [normalizeStopsAux]
  | cons s rest ih =>
    intro seen
    by_cases hc : jsTrim s.uuid = "" ∨ seen.contains (jsTrim s.uuid) = true
    · rw [show normalizeStopsAux seen (s :: rest) = normalizeStopsAux seen rest from by
        simp only [normalizeStopsAux]
        rw [if_pos hc]]
      exact ih seen
    · rw [show normalizeStopsAux seen (s :: rest)
          = { uuid := jsTrim s.uuid, label := stripElevatorRegionName (jsTrim s.label) } ::
            normalizeStopsAux (seen ++ [jsTrim s.uuid]) rest from by
        simp only [normalizeStopsAux]
        rw [if_neg hc]]
      obtain ⟨ih1, ih2⟩ := ih (seen ++ [jsTrim s.uuid])
      refine ⟨?_, ?_⟩
      · rw [List.map_cons, List.nodup_cons]
        exact ⟨fun hmem => ih2 _ hmem (List.mem_append_right _ (List.mem_singleton.mpr rfl)), ih1⟩
      · intro u hu huseen
        rw [List.map_cons] at hu
        rcases List.mem_cons.mp hu with h | h
        · refine hc (Or.inr ?_)
          rw [h] at huseen
          exact List.elem_iff.mpr huseen
        · exact ih2 u h (List.mem_append_left _ huseen)

theorem normalizeStops_nodup (stops : List Stop) :
    ((normalizeStops stops).map (fun s => s.uuid)).Nodup :=
  (normalizeStopsAux_nodup stops []).1

theorem resolvedStops_uuid_sublist (st : SyncState) :
    ∀ stops : List Stop,
      ((resolvedStops st stops).map (fun s => s.uuid)).Sublist (stops.map (fun s => s.uuid)) := by
  intro stops
  induction stops with
  | nil => simp [resolvedStops]
  | cons s rest ih =>
    unfold resolvedStops at ih ⊢
    rw [List.filterMap_cons]
    rcases hfd : findDoc st s.uuid with _ | d
    · simp only [Option.map_none']
      exact List.Sublist.cons _ ih
    · simp only [Option.map_some']
      exact List.Sublist.cons₂ _ ih

theorem resolvedStops_nodup (st : SyncState) (stops : List Stop) :
    (((resolvedStops st (normalizeStops stops))).map (fun s => s.uuid)).Nodup :=
  (resolvedStops_uuid_sublist st (normalizeStops stops)).nodup (normalizeStops_nodup stops)

theorem resolvedStops_mem (st : SyncState) (stops : List Stop) (r : Stop)
    (hr : r ∈ resolvedStops st stops) :
    ∃ s ∈ stops, ∃ d, findDoc st s.uuid = some d ∧ r.uuid = s.uuid ∧
      r.label = (if s.label ≠ "" then s.label else d.name) := by
  rcases List.mem_filterMap.mp hr with ⟨s, hs, hf⟩
  rcases hmap : findDoc st s.uuid with _ | d
  · rw [hmap] at hf
    simp at hf
  · rw [hmap] at hf
    simp only [Option.map_some', Option.some.injEq] at hf
    exact ⟨s, hs, d, hmap, by rw [← hf], by rw [← hf]⟩

theorem resolvedStops_resolves (st : SyncState) (stops : List Stop) (r : Stop)
    (hr : r ∈ resolvedStops st stops) : ∃ d, findDoc st r.uuid = some d := by
  rcases resolvedStops_mem st stops r hr with ⟨s, _, d, hd, huuid, _⟩
  exact ⟨d, by rw [huuid]; exact hd⟩

theorem unresolved_not_in_resolvedStops (st : SyncState) (stops : List Stop) (u : String)
    (hu : findDoc st u = none) :
    u ∉ (resolvedStops st stops).map (fun s => s.uuid) := by
  intro hmem
  rcases List.mem_map.mp hmem with ⟨r, hr, he⟩
  rcases resolvedStops_resolves st stops r hr with ⟨d, hd⟩
  rw [he] at hd
  rw [hu] at hd
  exact Option.noConfusion hd

theorem unresolved_forces_prune (st : SyncState) (stops : List Stop) (s : Stop)
    (hs : s ∈ stops) (hu : findDoc st s.uuid = none) :
    (resolvedStops st stops).length ≠ stops.length := by
  intro hlen
  have := List.filterMap_length_eq_length.mp hlen s hs
  rw [hu] at this
  simp at this

/-- The home stop the sync engine selects when no override is given:
`master.homeUuid || cleanedStops[0]?.uuid`. -/
def syncHome (master : MasterEntry) (cleaned : List Stop) : String :=
  if master.homeUuid ≠ "" then master.homeUuid
  else ((cleaned.head?.map (fun s => s.uuid)).getD "")

/-- The home label: the home stop's label in the cleaned list, or
`"Return"`. -/
def syncHomeLabel (cleaned : List Stop) (home : String) : String :=
  match cleaned.find? (fun s => s.uuid == home) with
  | some s => if s.label ≠ "" then s.label else "Return"
  | none => "Return"

theorem syncElevatorNetwork_run (e : String) (st : SyncState) (pe : String × MasterEntry)
    (he : e ≠ "")
    (hfind : st.linksById.find? (fun p => p.1 == e) = some pe)
    (hstops : normalizeStops pe.2.stops ≠ [])
    (hres : resolvedStops st (normalizeStops pe.2.stops) ≠ []) :
    syncElevatorNetwork e "" true st
      = (resolvedStops st (normalizeStops pe.2.stops)).foldl
          (syncStopStep e pe.2 (resolvedStops st (normalizeStops pe.2.stops))
            (syncHome pe.2 (resolvedStops st (normalizeStops pe.2.stops)))
            (syncHomeLabel (resolvedStops st (normalizeStops pe.2.stops))
              (syncHome pe.2 (resolvedStops st (normalizeStops pe.2.stops))))
            ((resolvedStops st (normalizeStops pe.2.stops)).map (fun s => s.uuid)))
          (if (resolvedStops st (normalizeStops pe.2.stops)).length
                ≠ (normalizeStops pe.2.stops).length then
             { st with linksById := st.linksById.map (fun p =>
                 if p.1 == e then (p.1, { pe.2 with stops := resolvedStops st (normalizeStops pe.2.stops) }) else p) }
           else st,
           if (resolvedStops st (normalizeStops pe.2.stops)).length
                ≠ (normalizeStops pe.2.stops).length then
             [WriteOp.pruneLinks e (resolvedStops st (normalizeStops pe.2.stops))]
           else []) := by
  simp only [syncElevatorNetwork, hfind, hstops, hres, he]
  rfl

theorem findDoc_mk (lb : List (String × MasterEntry)) (st : SyncState) (u : String) :
    findDoc ⟨lb, st.docs⟩ u = findDoc st u := rfl

/-- The whole-run document transformation of one sync call (no home
override): the identity off the resolved stop list, and the sync-loop
update on it. -/
def syncMapT (e : String) (st : SyncState) (master : MasterEntry) (d : RegionDoc) : RegionDoc :=
  match (resolvedStops st (normalizeStops master.stops)).find? (fun r => r.uuid == d.uuid) with
  | none => d
  | some r =>
    syncDocTransform e master (resolvedStops st (normalizeStops master.stops))
      (syncHome master (resolvedStops st (normalizeStops master.stops)))
      (syncHomeLabel (resolvedStops st (normalizeStops master.stops))
        (syncHome master (resolvedStops st (normalizeStops master.stops))))
      ((resolvedStops st (normalizeStops master.stops)).map (fun s => s.uuid)) r d

theorem syncMapT_uuid (e : String) (st : SyncState) (master : MasterEntry) (d : RegionDoc) :
    (syncMapT e st master d).uuid = d.uuid := by
  unfold syncMapT
  rcases h : (resolvedStops st (normalizeStops master.stops)).find? (fun r => r.uuid == d.uuid)
    with _ | r
  · rw [h]
  · rw [h]
    exact syncDocTransform_uuid e master _ _ _ _ r d

theorem syncElevatorNetwork_result (e : String) (st : SyncState) (pe : String × MasterEntry)
    (he : e ≠ "")
    (hfind : st.linksById.find? (fun p => p.1 == e) = some pe)
    (hstops : normalizeStops pe.2.stops ≠ [])
    (hres : resolvedStops st (normalizeStops pe.2.stops) ≠ [])
    (hdocs : (st.docs.map (fun d => d.uuid)).Nodup) :
    (syncElevatorNetwork e "" true st).1
      = { linksById :=
            if (resolvedStops st (normalizeStops pe.2.stops)).length
                ≠ (normalizeStops pe.2.stops).length then
              st.linksById.map (fun p =>
                if p.1 == e then
                  (p.1, { pe.2 with stops := resolvedStops st (normalizeStops pe.2.stops) })
                else p)
            else st.linksById,
          docs := st.docs.map (syncMapT e st pe.2) } := by
  rw [syncElevatorNetwork_run e st pe he hfind hstops hres]
  by_cases hp : (resolvedStops st (normalizeStops pe.2.stops)).length
      ≠ (normalizeStops pe.2.stops).length
  · rw [if_pos hp]
    have hfold := syncFold_docs e pe.2 (resolvedStops st (normalizeStops pe.2.stops))
      (syncHome pe.2 (resolvedStops st (normalizeStops pe.2.stops)))
      (syncHomeLabel (resolvedStops st (normalizeStops pe.2.stops))
        (syncHome pe.2 (resolvedStops st (normalizeStops pe.2.stops))))
      ((resolvedStops st (normalizeStops pe.2.stops)).map (fun s => s.uuid))
      (resolvedStops st (normalizeStops pe.2.stops))
      { st with linksById := st.linksById.map (fun p =>
          if p.1 == e then
            (p.1, { pe.2 with stops := resolvedStops st (normalizeStops pe.2.stops) })
          else p) }
      [WriteOp.pruneLinks e (resolvedStops st (normalizeStops pe.2.stops))]
      (resolvedStops_nodup st pe.2.stops) hdocs
    simp only [if_pos hp]
    rw [hfold]
    rfl
  · rw [if_neg hp]
    have hfold := syncFold_docs e pe.2 (resolvedStops st (normalizeStops pe.2.stops))
      (syncHome pe.2 (resolvedStops st (normalizeStops pe.2.stops)))
      (syncHomeLabel (resolvedStops st (normalizeStops pe.2.stops))
        (syncHome pe.2 (resolvedStops st (normalizeStops pe.2.stops))))
      ((resolvedStops st (normalizeStops pe.2.stops)).map (fun s => s.uuid))
      (resolvedStops st (normalizeStops pe.2.stops)) st []
      (resolvedStops_nodup st pe.2.stops) hdocs
    simp only [if_neg hp]
    rw [hfold]
    rfl

theorem syncDoc_at_index (e : String) (st : SyncState) (pe : String × MasterEntry)
    (he : e ≠ "")
    (hfind : st.linksById.find? (fun p => p.1 == e) = some pe)
    (hstops : normalizeStops pe.2.stops ≠ [])
    (hdocs : (st.docs.map (fun d => d.uuid)).Nodup)
    (i : Nat) (hi : i < (resolvedStops st (normalizeStops pe.2.stops)).length)
    (d0 : RegionDoc)
    (hd0 : findDoc st ((resolvedStops st (normalizeStops pe.2.stops)).get ⟨i, hi⟩).uuid
      = some d0) :
    findDoc (syncElevatorNetwork e "" true st).1
        ((resolvedStops st (normalizeStops pe.2.stops)).get ⟨i, hi⟩).uuid
      = some (syncDocTransform e pe.2 (resolvedStops st (normalizeStops pe.2.stops))
          (syncHome pe.2 (resolvedStops st (normalizeStops pe.2.stops)))
          (syncHomeLabel (resolvedStops st (normalizeStops pe.2.stops))
            (syncHome pe.2 (resolvedStops st (normalizeStops pe.2.stops))))
          ((resolvedStops st (normalizeStops pe.2.stops)).map (fun s => s.uuid))
          ((resolvedStops st (normalizeStops pe.2.stops)).get ⟨i, hi⟩) d0) := by
  have hres : resolvedStops st (normalizeStops pe.2.stops) ≠ [] := by
    intro h
    rw [h] at hi
    simp at hi
  rw [syncElevatorNetwork_result e st pe he hfind hstops hres hdocs]
  rw [findDoc_map _ _ _ (syncMapT_uuid e st pe.2), findDoc_mk, hd0]
  have hfd0uuid : d0.uuid = ((resolvedStops st (normalizeStops pe.2.stops)).get ⟨i, hi⟩).uuid :=
    findDoc_some_uuid st _ d0 hd0
  have hfindr : (resolvedStops st (normalizeStops pe.2.stops)).find?
      (fun r => r.uuid == d0.uuid)
      = some ((resolvedStops st (normalizeStops pe.2.stops)).get ⟨i, hi⟩) := by
    rw [hfd0uuid]
    exact find?_stop_self _ _ (resolvedStops_nodup st pe.2.stops)
      (List.get_mem _ i hi)
  simp only [Option.map_some', Option.some.injEq]
  unfold syncMapT
  rw [hfindr]

/-! ## Claim C4 -/

theorem pad2_length_two (m : Nat) (h1 : 1 ≤ m) (h2 : m ≤ 99) : (pad2 m).length = 2 := by
  interval_cases m <;> rfl

theorem desiredName_at_index (e : String) (cleaned : List Stop) (i : Nat)
    (hi : i < cleaned.length) (hnd : (cleaned.map (fun s => s.uuid)).Nodup) (docName : String) :
    desiredName e cleaned (cleaned.get ⟨i, hi⟩).label docName (cleaned.get ⟨i, hi⟩).uuid
      = formatElevatorRegionName e (cleaned.length - i)
          (if (cleaned.get ⟨i, hi⟩).label ≠ "" then (cleaned.get ⟨i, hi⟩).label else docName) := by
  simp only [desiredName]
  rw [findIdx_stop_get cleaned i hi hnd]
  rw [if_pos hi, List.get?_eq_get hi]
  simp only [Option.map_some', Option.getD_some]
  by_cases hl : (cleaned.get ⟨i, hi⟩).label ≠ ""
  · rw [if_pos hl, if_pos hl]
  · rw [if_neg hl, if_neg hl]

/-- C4 (amended): after a sync run, the stop at index `i` of the cleaned
stop list (of length `n`) is assigned floor number `n − i` — index 0 is
the highest floor — and its document is renamed to the derived display
name built from that floor; the floor field of that name is exactly two
digits whenever the network has at most 99 stops (for larger networks the
field is wider: the format pads to at least two digits). -/
theorem claim_C4_floorNumbering (e : String) (st : SyncState) (pe : String × MasterEntry)
    (he : e ≠ "")
    (hfind : st.linksById.find? (fun p => p.1 == e) = some pe)
    (hstops : normalizeStops pe.2.stops ≠ [])
    (hdocs : (st.docs.map (fun d => d.uuid)).Nodup)
    (i : Nat) (hi : i < (resolvedStops st (normalizeStops pe.2.stops)).length)
    (d0 : RegionDoc)
    (hd0 : findDoc st ((resolvedStops st (normalizeStops pe.2.stops)).get ⟨i, hi⟩).uuid
      = some d0) :
    ∃ d', findDoc (syncElevatorNetwork e "" true st).1
        ((resolvedStops st (normalizeStops pe.2.stops)).get ⟨i, hi⟩).uuid = some d' ∧
      d'.name = formatElevatorRegionName e
        ((resolvedStops st (normalizeStops pe.2.stops)).length - i)
        (if ((resolvedStops st (normalizeStops pe.2.stops)).get ⟨i, hi⟩).label ≠ ""
         then ((resolvedStops st (normalizeStops pe.2.stops)).get ⟨i, hi⟩).label
         else d0.name) ∧
      ((resolvedStops st (normalizeStops pe.2.stops)).length ≤ 99 →
        (pad2 (max 1 ((resolvedStops st (normalizeStops pe.2.stops)).length - i))).length
          = 2) := by
  refine ⟨_, syncDoc_at_index e st pe he hfind hstops hdocs i hi d0 hd0, ?_, ?_⟩
  · exact desiredName_at_index e (resolvedStops st (normalizeStops pe.2.stops)) i hi
      (resolvedStops_nodup st pe.2.stops) d0.name
  · intro hn
    apply pad2_length_two
    · exact le_max_left 1 _
    · exact max_le (by norm_num) (le_trans (Nat.sub_le _ _) hn)

/-- Registry data for the closed C4 instance: stops [A, B, C]. -/
def c4St : SyncState :=
  ⟨[("e", ⟨[⟨"ua", "A"⟩, ⟨"ub", "B"⟩, ⟨"uc", "C"⟩], "", "t", "i", 0, false⟩)],
   [⟨"ua", "A", ⟨false, "", false, "", "", 0, false, [], none, ""⟩, []⟩,
    ⟨"ub", "B", ⟨false, "", false, "", "", 0, false, [], none, ""⟩, []⟩,
    ⟨"uc", "C", ⟨false, "", false, "", "", 0, false, [], none, ""⟩, []⟩]⟩

/-- Closed instance of C4: with stops [A, B, C], the middle stop B gets
floor 3 − 1 = 2 and display name "ELV e 02 B". -/
theorem claim_C4_witness :
    ((findDoc (syncElevatorNetwork "e" "" true c4St).1 "ub").map (fun d => d.name))
      = some "ELV e 02 B" := by
  obtain ⟨d', hf, hname, htwo⟩ := claim_C4_floorNumbering "e" c4St
    ("e", ⟨[⟨"ua", "A"⟩, ⟨"ub", "B"⟩, ⟨"uc", "C"⟩], "", "t", "i", 0, false⟩)
    (by decide) (by decide) (by decide) (by decide) 1 (by decide)
    ⟨"ub", "B", ⟨false, "", false, "", "", 0, false, [], none, ""⟩, []⟩ (by decide)
  rw [show ((resolvedStops c4St (normalizeStops
      [⟨"ua", "A"⟩, ⟨"ub", "B"⟩, ⟨"uc", "C"⟩])).get ⟨1, by decide⟩).uuid = "ub" from rfl] at hf
  rw [hf]
  simp only [Option.map_some', Option.some.injEq]
  rw [hname]
  rfl

/-- A 100-stop registry: floors run 100 down to 1. -/
def c4BigStops : List Stop :=
  (List.range 100).map (fun k => ⟨"b" ++ toString k, "s" ++ toString k⟩)

def c4BigMaster : MasterEntry := ⟨c4BigStops, "", "", "", 0, false⟩

def c4BigSt : SyncState :=
  ⟨[("e", c4BigMaster)],
   c4BigStops.map (fun s =>
     ⟨s.uuid, s.label, ⟨false, "", false, "", "", 0, false, [], none, ""⟩, []⟩)⟩

/-- Whitespace tokenisation of a character list (used to name the fields
of a derived display name). -/
def wsTokensAux : List Char → List Char → List (List Char)
  | [], acc => if acc = [] then [] else [acc.reverse]
  | c :: cs, acc =>
    if isJsWs c then
      (if acc = [] then wsTokensAux cs [] else acc.reverse :: wsTokensAux cs [])
    else wsTokensAux cs (c :: acc)

/-- The whitespace-separated tokens of a string. -/
def wsTokens (s : String) : List String :=
  (wsTokensAux s.toList []).map List.asString

set_option maxHeartbeats 1600000 in
set_option maxRecDepth 8192 in
/-- C4 fails as stated on a 100-stop network: after sync, the first stop's
display name is "ELV e 100 s0", whose floor field (the third
whitespace-separated token) is "100" — three digits, not two. -/
theorem claim_C4_counterexample :
    ((findDoc (syncElevatorNetwork "e" "" true c4BigSt).1 "b0").map (fun d => d.name))
      = some "ELV e 100 s0" ∧
    (wsTokens "ELV e 100 s0").get? 2 = some "100" ∧
    "100".length ≠ 2 := by
  refine ⟨?_, by decide, by decide⟩
  rw [syncElevatorNetwork_result "e" c4BigSt ("e", c4BigMaster) (by decide) rfl (by decide)
    (by decide) (by decide)]
  rw [findDoc_map _ _ _ (syncMapT_uuid "e" c4BigSt c4BigMaster), findDoc_mk]
  rw [show findDoc c4BigSt "b0"
      = some ⟨"b0", "s0", ⟨false, "", false, "", "", 0, false, [], none, ""⟩, []⟩ from by decide]
  simp only [Option.map_some', Option.some.injEq]
  decide

/-! ## Claim C7 -/

/-- C7: after one successful sync run, every resolved member stop's
derived "levels" flag equals the cleaned stop list minus that stop
itself; and every stored stop uuid that no longer resolves is pruned:
the persisted registry entry's stop list becomes the cleaned list (which
cannot contain the dead uuid), and no sibling's "levels" mentions it. -/
theorem claim_C7_syncInvariants (e : String) (st : SyncState) (pe : String × MasterEntry)
    (he : e ≠ "")
    (hfind : st.linksById.find? (fun p => p.1 == e) = some pe)
    (hstops : normalizeStops pe.2.stops ≠ [])
    (hres : resolvedStops st (normalizeStops pe.2.stops) ≠ [])
    (hdocs : (st.docs.map (fun d => d.uuid)).Nodup) :
    (∀ (i : Nat) (hi : i < (resolvedStops st (normalizeStops pe.2.stops)).length)
       (d0 : RegionDoc),
       findDoc st ((resolvedStops st (normalizeStops pe.2.stops)).get ⟨i, hi⟩).uuid = some d0 →
       ∃ d', findDoc (syncElevatorNetwork e "" true st).1
           ((resolvedStops st (normalizeStops pe.2.stops)).get ⟨i, hi⟩).uuid = some d' ∧
         d'.flags.levels = (resolvedStops st (normalizeStops pe.2.stops)).filter
           (fun s => s.uuid ≠ ((resolvedStops st (normalizeStops pe.2.stops)).get ⟨i, hi⟩).uuid)) ∧
    (∀ u ∈ (normalizeStops pe.2.stops).map (fun s => s.uuid), findDoc st u = none →
       ((syncElevatorNetwork e "" true st).1.linksById.find? (fun p => p.1 == e)
          = some (pe.1, { pe.2 with stops := resolvedStops st (normalizeStops pe.2.stops) })) ∧
       u ∉ (resolvedStops st (normalizeStops pe.2.stops)).map (fun s => s.uuid) ∧
       (∀ (i : Nat) (hi : i < (resolvedStops st (normalizeStops pe.2.stops)).length)
          (d' : RegionDoc),
          findDoc (syncElevatorNetwork e "" true st).1
            ((resolvedStops st (normalizeStops pe.2.stops)).get ⟨i, hi⟩).uuid = some d' →
          u ∉ d'.flags.levels.map (fun s => s.uuid))) := by
  constructor
  · intro i hi d0 hd0
    exact ⟨_, syncDoc_at_index e st pe he hfind hstops hdocs i hi d0 hd0, rfl⟩
  · intro u hu hnone
    rcases List.mem_map.mp hu with ⟨s, hs, hsu⟩
    have hprune : (resolvedStops st (normalizeStops pe.2.stops)).length
        ≠ (normalizeStops pe.2.stops).length :=
      unresolved_forces_prune st (normalizeStops pe.2.stops) s hs (by rw [hsu]; exact hnone)
    refine ⟨?_, unresolved_not_in_resolvedStops st (normalizeStops pe.2.stops) u hnone, ?_⟩
    · rw [syncElevatorNetwork_result e st pe he hfind hstops hres hdocs]
      simp only [if_pos hprune]
      rw [List.find?_map]
      have hpe : ((fun p : String × MasterEntry => p.1 == e) ∘ (fun p =>
          if p.1 == e then
            (p.1, { pe.2 with stops := resolvedStops st (normalizeStops pe.2.stops) })
          else p)) = (fun p : String × MasterEntry => p.1 == e) := by
        funext p
        have h1 : ((if p.1 == e then
            (p.1, { pe.2 with stops := resolvedStops st (normalizeStops pe.2.stops) })
            else p).1) = p.1 := by
          by_cases hp : (p.1 == e) = true
          · rw [if_pos hp]
          · rw [if_neg hp]
        simp only [Function.comp_apply]
        rw [h1]
      rw [hpe, hfind]
      have hkey : (pe.1 == e) = true := by simpa using List.find?_some hfind
      simp only [Option.map_some']
      rw [if_pos hkey]
    · intro i hi d' hd'
      rcases resolvedStops_resolves st (normalizeStops pe.2.stops) _
        (List.get_mem _ i hi) with ⟨d0, hd0⟩
      have htrans := syncDoc_at_index e st pe he hfind hstops hdocs i hi d0 hd0
      have hde : d' = syncDocTransform e pe.2 (resolvedStops st (normalizeStops pe.2.stops))
          (syncHome pe.2 (resolvedStops st (normalizeStops pe.2.stops)))
          (syncHomeLabel (resolvedStops st (normalizeStops pe.2.stops))
            (syncHome pe.2 (resolvedStops st (normalizeStops pe.2.stops))))
          ((resolvedStops st (normalizeStops pe.2.stops)).map (fun s => s.uuid))
          ((resolvedStops st (normalizeStops pe.2.stops)).get ⟨i, hi⟩) d0 :=
        Option.some.inj (hd'.symm.trans htrans)
      subst hde
      intro hmem
      rcases List.mem_map.mp hmem with ⟨t, ht, htu⟩
      have ht2 : t ∈ resolvedStops st (normalizeStops pe.2.stops) := List.mem_of_mem_filter ht
      exact unresolved_not_in_resolvedStops st (normalizeStops pe.2.stops) u hnone
        (List.mem_map.mpr ⟨t, ht2, htu⟩)

/-- Concrete state for the closed C7 instance: three stops, the third
uuid dead. -/
def c7St : SyncState :=
  ⟨[("e", ⟨[⟨"ua", "A"⟩, ⟨"ub", "B"⟩, ⟨"ux", "Gone"⟩], "", "t", "i", 0, false⟩)],
   [⟨"ua", "A", ⟨false, "", false, "", "", 0, false, [], none, ""⟩, []⟩,
    ⟨"ub", "B", ⟨false, "", false, "", "", 0, false, [], none, ""⟩, []⟩]⟩

/-- Closed instance of C7: stop A's levels become exactly [B]; the dead
uuid "ux" is pruned from the registry and from A's levels. -/
theorem claim_C7_witness :
    ((findDoc (syncElevatorNetwork "e" "" true c7St).1 "ua").map (fun d => d.flags.levels))
      = some [⟨"ub", "B"⟩] ∧
    ((syncElevatorNetwork "e" "" true c7St).1.linksById.find? (fun p => p.1 == "e")).map
        (fun p => p.2.stops)
      = some [⟨"ua", "A"⟩, ⟨"ub", "B"⟩] := by
  have h := claim_C7_syncInvariants "e" c7St
    ("e", ⟨[⟨"ua", "A"⟩, ⟨"ub", "B"⟩, ⟨"ux", "Gone"⟩], "", "t", "i", 0, false⟩)
    (by decide) (by decide) (by decide) (by decide) (by decide)
  obtain ⟨d', hf, hlev⟩ := h.1 0 (by decide)
    ⟨"ua", "A", ⟨false, "", false, "", "", 0, false, [], none, ""⟩, []⟩ (by decide)
  obtain ⟨hreg, hnotin, _⟩ := h.2 "ux" (by decide) (by decide)
  constructor
  · rw [show ((resolvedStops c7St (normalizeStops
        [⟨"ua", "A"⟩, ⟨"ub", "B"⟩, ⟨"ux", "Gone"⟩])).get ⟨0, by decide⟩).uuid = "ua"
        from rfl] at hf
    rw [hf]
    simp only [Option.map_some', Option.some.injEq]
    rw [hlev]
    decide
  · rw [hreg]
    decide

/-! ## Claim C6 -/

/-- A registry entry is consistent when every stop that resolves already
carries the display name, flags and in-network teleport destinations the
sync engine would derive for it.  This is exactly the state one
successful sync run establishes. -/
def syncConsistentB (e : String) (st : SyncState) : Bool :=
  match st.linksById.find? (fun p => p.1 == e) with
  | none => true
  | some pe =>
    let cleaned := resolvedStops st (normalizeStops pe.2.stops)
    let home := syncHome pe.2 cleaned
    let hl := syncHomeLabel cleaned home
    let allowed := cleaned.map (fun s => s.uuid)
    cleaned.all (fun r =>
      match findDoc st r.uuid with
      | none => true
      | some d =>
        decide (d.name = desiredName e cleaned r.label d.name r.uuid) &&
        decide (desiredFlags e pe.2 cleaned home hl r.uuid d.flags = d.flags) &&
        decide (restrictTeleportBehaviorsToNetwork r.uuid d.behaviors allowed home
          = (d.behaviors, [])))

theorem foldl_step_fixed (g : SyncState × List WriteOp → Stop → SyncState × List WriteOp)
    (s0 : SyncState) : ∀ (l : List Stop) (w : List WriteOp),
    (∀ r ∈ l, ∀ w' : List WriteOp, g (s0, w') r = (s0, w')) →
    l.foldl g (s0, w) = (s0, w) := by
  intro l
  induction l with
  | nil => intro w _; rfl
  | cons r rest ih =>
    intro w h
    rw [List.foldl_cons, h r (List.mem_cons_self r rest) w]
    exact ih w (fun r' hr' => h r' (List.mem_cons_of_mem r hr'))

theorem syncStopStep_noop (e : String) (master : MasterEntry) (cleaned : List Stop)
    (home hl : String) (allowed : List String) (lb' : List (String × MasterEntry))
    (st : SyncState) (hdocs : (st.docs.map (fun d => d.uuid)).Nodup)
    (r : Stop) (d : RegionDoc)
    (hfd : findDoc st r.uuid = some d)
    (hname : d.name = desiredName e cleaned r.label d.name r.uuid)
    (hflags : desiredFlags e master cleaned home hl r.uuid d.flags = d.flags)
    (hbeh : restrictTeleportBehaviorsToNetwork r.uuid d.behaviors allowed home
      = (d.behaviors, []))
    (w' : List WriteOp) :
    syncStopStep e master cleaned home hl allowed (⟨lb', st.docs⟩, w') r = (⟨lb', st.docs⟩, w') := by
  have hfd' : findDoc ⟨lb', st.docs⟩ r.uuid = some d := hfd
  simp only [syncStopStep, hfd']
  rw [if_neg (show ¬ (d.name ≠ desiredName e cleaned r.label d.name r.uuid)
    from fun hne => hne hname)]
  rw [hbeh]
  rw [if_neg (show ¬ (((none : Option String)).isSome = true
      ∨ desiredFlags e master cleaned home hl r.uuid d.flags ≠ d.flags)
    from by simp [hflags])]
  dsimp only
  have hmap : st.docs.map (fun d' => if d'.uuid == r.uuid then
      { d' with
        name := desiredName e cleaned r.label d.name r.uuid
        flags := desiredFlags e master cleaned home hl r.uuid d.flags
        behaviors := d.behaviors }
      else d') = st.docs := by
    have : ∀ d' ∈ st.docs, (if d'.uuid == r.uuid then
        { d' with
          name := desiredName e cleaned r.label d.name r.uuid
          flags := desiredFlags e master cleaned home hl r.uuid d.flags
          behaviors := d.behaviors }
        else d') = d' := by
      intro d' hd'
      by_cases hq : (d'.uuid == r.uuid) = true
      · have hdd : d' = d := by
          have hself : findDoc st d'.uuid = some d' := findDoc_self st d' hdocs hd'
          rw [(by simpa using hq : d'.uuid = r.uuid)] at hself
          exact Option.some.inj (hself.symm.trans hfd)
        subst hdd
        rw [if_pos hq, hflags, ← hname]
      · rw [if_neg hq]
    rw [List.map_congr_left this, List.map_id']
  simp only [updateDoc]
  rw [hmap, List.append_nil, List.append_nil]

/-- C6: running the sync engine on an already-consistent registry entry
(the state a previous successful run establishes) performs zero writes
other than the self-healing prune of unresolvable stop uuids: the
documents are untouched; without dead uuids the call returns the state
unchanged with an empty write list, and with dead uuids the only write
is the registry prune.  In particular no stop's display name is
rewritten, since none differs from the desired name. -/
theorem claim_C6_consistentSyncNoWrites (e : String) (st : SyncState)
    (pe : String × MasterEntry)
    (he : e ≠ "")
    (hfind : st.linksById.find? (fun p => p.1 == e) = some pe)
    (hstops : normalizeStops pe.2.stops ≠ [])
    (hres : resolvedStops st (normalizeStops pe.2.stops) ≠ [])
    (hdocs : (st.docs.map (fun d => d.uuid)).Nodup)
    (hcons : syncConsistentB e st = true) :
    (syncElevatorNetwork e "" true st).1.docs = st.docs ∧
    ((resolvedStops st (normalizeStops pe.2.stops)).length = (normalizeStops pe.2.stops).length →
      syncElevatorNetwork e "" true st = (st, [])) ∧
    ((resolvedStops st (normalizeStops pe.2.stops)).length ≠ (normalizeStops pe.2.stops).length →
      syncElevatorNetwork e "" true st
        = ({ st with linksById := st.linksById.map (fun p =>
              if p.1 == e then
                (p.1, { pe.2 with stops := resolvedStops st (normalizeStops pe.2.stops) })
              else p) },
           [WriteOp.pruneLinks e (resolvedStops st (normalizeStops pe.2.stops))])) := by
  have hfacts : ∀ r ∈ resolvedStops st (normalizeStops pe.2.stops), ∀ d : RegionDoc,
      findDoc st r.uuid = some d →
      d.name = desiredName e (resolvedStops st (normalizeStops pe.2.stops)) r.label d.name r.uuid ∧
      desiredFlags e pe.2 (resolvedStops st (normalizeStops pe.2.stops))
        (syncHome pe.2 (resolvedStops st (normalizeStops pe.2.stops)))
        (syncHomeLabel (resolvedStops st (normalizeStops pe.2.stops))
          (syncHome pe.2 (resolvedStops st (normalizeStops pe.2.stops)))) r.uuid d.flags
        = d.flags ∧
      restrictTeleportBehaviorsToNetwork r.uuid d.behaviors
        ((resolvedStops st (normalizeStops pe.2.stops)).map (fun s => s.uuid))
        (syncHome pe.2 (resolvedStops st (normalizeStops pe.2.stops)))
        = (d.behaviors, []) := by
    intro r hr d hd
    unfold syncConsistentB at hcons
    rw [hfind] at hcons
    have hall := List.all_eq_true.mp hcons r hr
    rw [hd] at hall
    simp only [Bool.and_eq_true, decide_eq_true_eq] at hall
    exact ⟨hall.1.1, hall.1.2, hall.2⟩
  have hnoop : ∀ (lb' : List (String × MasterEntry)) (w : List WriteOp),
      (resolvedStops st (normalizeStops pe.2.stops)).foldl
        (syncStopStep e pe.2 (resolvedStops st (normalizeStops pe.2.stops))
          (syncHome pe.2 (resolvedStops st (normalizeStops pe.2.stops)))
          (syncHomeLabel (resolvedStops st (normalizeStops pe.2.stops))
            (syncHome pe.2 (resolvedStops st (normalizeStops pe.2.stops))))
          ((resolvedStops st (normalizeStops pe.2.stops)).map (fun s => s.uuid)))
        (⟨lb', st.docs⟩, w) = (⟨lb', st.docs⟩, w) := by
    intro lb' w
    apply foldl_step_fixed
    intro r hr w'
    rcases resolvedStops_resolves st (normalizeStops pe.2.stops) r hr with ⟨d, hd⟩
    rcases hfacts r hr d hd with ⟨h1, h2, h3⟩
    exact syncStopStep_noop e pe.2 _ _ _ _ lb' st hdocs r d hd h1 h2 h3 w'
  rw [syncElevatorNetwork_run e st pe he hfind hstops hres]
  by_cases hp : (resolvedStops st (normalizeStops pe.2.stops)).length
      ≠ (normalizeStops pe.2.stops).length
  · simp only [if_pos hp]
    rw [show ({ st with linksById := st.linksById.map (fun p =>
        if p.1 == e then
          (p.1, { pe.2 with stops := resolvedStops st (normalizeStops pe.2.stops) })
        else p) } : SyncState)
        = (⟨st.linksById.map (fun p =>
            if p.1 == e then
              (p.1, { pe.2 with stops := resolvedStops st (normalizeStops pe.2.stops) })
            else p), st.docs⟩ : SyncState) from rfl]
    rw [hnoop]
    exact ⟨rfl, fun hcontra => absurd hcontra hp, fun _ => rfl⟩
  · simp only [if_neg hp]
    rw [show (st : SyncState) = (⟨st.linksById, st.docs⟩ : SyncState) from rfl, hnoop]
    exact ⟨rfl, fun _ => rfl, fun hcontra => absurd (not_not.mp (fun h => h hcontra)) hp⟩

/-- A consistent two-stop state: exactly what one successful sync run of
the entry "e" establishes. -/
def c6St : SyncState :=
  ⟨[("e", ⟨[⟨"ua", "A"⟩, ⟨"ub", "B"⟩], "", "t", "i", 2, true⟩)],
   [⟨"ua", "ELV e 02 A",
     ⟨true, "e", true, "t", "i", 2, true, [⟨"ub", "B"⟩], none, "x"⟩,
     [⟨"teleportToken", "ua"⟩]⟩,
    ⟨"ub", "ELV e 01 B",
     ⟨true, "e", false, "t", "i", 2, true, [⟨"ua", "A"⟩], some ⟨"ua", "A"⟩, ""⟩,
     []⟩]⟩

/-- Closed instance of C6: a second sync run on the consistent two-stop
state returns the state unchanged with an empty write list. -/
theorem claim_C6_witness :
    syncElevatorNetwork "e" "" true c6St = (c6St, []) :=
  (claim_C6_consistentSyncNoWrites "e" c6St
    ("e", ⟨[⟨"ua", "A"⟩, ⟨"ub", "B"⟩], "", "t", "i", 2, true⟩)
    (by decide) (by decide) (by decide) (by decide) (by decide) (by decide)).2.1 (by decide)

/-! ## Claim C9 -/

/-- Is the list the tail of a two-digit segment: one digit then a
segment boundary (end of string or whitespace)? -/
def twoDigAt (cs : List Char) : Bool :=
  match cs with
  | d :: cs2 => d.isDigit && (match cs2 with | [] => true | x :: _ => isJsWs x)
  | [] => false

/-- Scan for a standalone two-digit whitespace-separated segment: the
flag records whether the scanner stands at a segment boundary. -/
def scanTwoDigitSeg : Bool → List Char → Bool
  | _, [] => false
  | atStart, c :: cs =>
    if isJsWs c then scanTwoDigitSeg true cs
    else if atStart && c.isDigit && twoDigAt cs then true
    else scanTwoDigitSeg false cs

/-- Whether some whitespace-separated segment of `s` is exactly a
two-digit number. -/
def hasTwoDigitSegment (s : String) : Bool :=
  scanTwoDigitSeg true s.toList

theorem digit_not_ws (c : Char) (h : c.isDigit = true) : isJsWs c = false := by
  by_contra hcon
  have hws : isJsWs c = true := by
    cases hx : isJsWs c
    · exact absurd hx hcon
    · rfl
  unfold isJsWs at hws
  simp only [Bool.or_eq_true, decide_eq_true_eq] at hws
  rcases hws with ((((h1 | h1) | h1) | h1) | h1) | h1 <;> subst h1 <;> simp [Char.isDigit] at h

theorem scanTwoDigitSeg_step (flag : Bool) (x : Char) (l : List Char)
    (h : scanTwoDigitSeg flag (x :: l) = false) :
    scanTwoDigitSeg (isJsWs x) l = false := by
  rw [show scanTwoDigitSeg flag (x :: l)
      = (if isJsWs x then scanTwoDigitSeg true l
         else if flag && x.isDigit && twoDigAt l then true
         else scanTwoDigitSeg false l) from by simp only [scanTwoDigitSeg]] at h
  by_cases hx : isJsWs x = true
  · rw [hx]
    rw [if_pos hx] at h
    exact h
  · rw [Bool.not_eq_true] at hx
    rw [hx]
    rw [if_neg (by simp [hx])] at h
    by_cases hf : (flag && x.isDigit && twoDigAt l) = true
    · rw [if_pos hf] at h
      exact absurd h (by simp)
    · rw [if_neg hf] at h
      exact h

theorem scanTwoDigitSeg_suffix (l : List Char) :
    ∀ flag, scanTwoDigitSeg flag l = false →
      ∀ w, w <:+ l → ∃ g, scanTwoDigitSeg g w = false := by
  induction l with
  | nil =>
    intro flag h w hw
    rw [List.suffix_nil] at hw
    exact ⟨flag, by rw [hw]; rfl⟩
  | cons x l ih =>
    intro flag h w hw
    rcases List.suffix_cons_iff.mp hw with hcase | hcase
    · exact ⟨flag, by rw [hcase]; exact h⟩
    · exact ih (isJsWs x) (scanTwoDigitSeg_step flag x l h) w hcase


theorem jsTrimList_head_not_ws (cs : List Char) (c : Char)
    (h : (jsTrimList cs).head? = some c) : isJsWs c = false := by
  unfold jsTrimList at h
  rw [List.head?_reverse] at h
  have hne : (cs.dropWhile isJsWs).reverse.dropWhile isJsWs ≠ [] := by
    intro hnil; rw [hnil] at h; simp at h
  rw [dropWhile_getLast isJsWs _ hne, List.getLast?_reverse] at h
  exact dropWhile_head_not isJsWs cs c h

theorem jsTrimList_getLast_not_ws (cs : List Char) (c : Char)
    (h : (jsTrimList cs).getLast? = some c) : isJsWs c = false := by
  unfold jsTrimList at h
  rw [List.getLast?_reverse] at h
  exact dropWhile_head_not isJsWs _ c h

theorem jsTrimList_eq_self (l : List Char)
    (hh : ∀ c, l.head? = some c → isJsWs c = false)
    (hl : ∀ c, l.getLast? = some c → isJsWs c = false) : jsTrimList l = l := by
  unfold jsTrimList
  rw [dropWhile_eq_self_of_head isJsWs l hh]
  have hrev : l.reverse.dropWhile isJsWs = l.reverse := by
    apply dropWhile_eq_self_of_head
    intro c hc
    rw [List.head?_reverse] at hc
    exact hl c hc
  rw [hrev, List.reverse_reverse]

theorem wsRunLen_cons_ws (c : Char) (cs : List Char) (h : isJsWs c = true) :
    wsRunLen (c :: cs) = wsRunLen cs + 1 := by
  simp [wsRunLen, h]

theorem wsRunLen_cons_not (c : Char) (cs : List Char) (h : isJsWs c = false) :
    wsRunLen (c :: cs) = 0 := by
  simp [wsRunLen, h]

theorem getLast?_append_right (l₁ l₂ : List Char) (h : l₂ ≠ []) :
    (l₁ ++ l₂).getLast? = l₂.getLast? := by
  induction l₁ with
  | nil => rfl
  | cons x xs ih =>
    rw [List.cons_append]
    cases hxs : xs ++ l₂ with
    | nil =>
      rcases List.append_eq_nil.mp hxs with ⟨-, h2⟩
      exact absurd h2 h
    | cons y ys =>
      rw [List.getLast?_cons_cons, ← hxs]
      exact ih

theorem tryTail_head_not_ws (m : List Char)
    (h : ∀ c, m.head? = some c → isJsWs c = false) : tryTail m = none := by
  cases m with
  | nil => rfl
  | cons x xs =>
    have hx : isJsWs x = false := h x rfl
    simp only [tryTail, wsRunLen_cons_not x xs hx]
    rw [if_pos trivial]

theorem tryTail_cons_ws (x : Char) (m : List Char) (hx : isJsWs x = true)
    (hm : wsRunLen m ≠ 0) : tryTail (x :: m) = tryTail m := by
  simp only [tryTail, wsRunLen_cons_ws x m hx]
  rw [if_neg (show ¬ (wsRunLen m + 1 = 0) from by omega), if_neg hm, List.drop_succ_cons]

/-- The digit-and-trailing-run part of `tryTail`, after the leading
whitespace run has been consumed. -/
def afterRun : List Char → Option (List Char)
  | d1 :: d2 :: r2 =>
    if d1.isDigit && d2.isDigit then
      if wsRunLen r2 = 0 then none else some (r2.drop (wsRunLen r2))
    else none
  | _ => none

theorem tryTail_cons_ws_zero (x : Char) (m : List Char) (hx : isJsWs x = true)
    (hm : wsRunLen m = 0) : tryTail (x :: m) = afterRun m := by
  simp only [tryTail, wsRunLen_cons_ws x m hx, hm]
  rw [if_neg (show ¬ (0 + 1 = 0) from by omega)]
  rw [show (0 : Nat) + 1 = 1 from rfl, List.drop_succ_cons, List.drop_zero]
  rcases m with _ | ⟨d1, _ | ⟨d2, r2⟩⟩ <;> rfl

theorem tryTail_S (d1 d2 : Char) (v : List Char) (hd1 : d1.isDigit = true)
    (hd2 : d2.isDigit = true) (hvne : v ≠ [])
    (hv : ∀ c, v.head? = some c → isJsWs c = false) :
    tryTail (' ' :: d1 :: d2 :: ' ' :: v) = some v := by
  have h1 : wsRunLen (' ' :: d1 :: d2 :: ' ' :: v) = 1 := by
    rw [wsRunLen_cons_ws _ _ (by decide), wsRunLen_cons_not _ _ (digit_not_ws d1 hd1)]
  simp only [tryTail, h1]
  rw [if_neg (show ¬ (1 = 0) from by omega)]
  rw [show (' ' :: d1 :: d2 :: ' ' :: v).drop 1 = d1 :: d2 :: ' ' :: v from rfl]
  have h2 : wsRunLen (' ' :: v) = 1 := by
    cases v with
    | nil => exact absurd rfl hvne
    | cons c v' =>
      rw [wsRunLen_cons_ws _ _ (by decide), wsRunLen_cons_not _ _ (hv c rfl)]
  rw [show (match d1 :: d2 :: (' ' :: v) with
       | e1 :: e2 :: r2 =>
         if e1.isDigit && e2.isDigit then
           if wsRunLen r2 = 0 then none else some (r2.drop (wsRunLen r2))
         else none
       | _ => none)
      = (if d1.isDigit && d2.isDigit then
           if wsRunLen (' ' :: v) = 0 then none
           else some ((' ' :: v).drop (wsRunLen (' ' :: v)))
         else none) from rfl]
  rw [if_pos (by rw [hd1, hd2]; rfl), h2, if_neg (show ¬ (1 = 0) from by omega)]
  rw [show (' ' :: v).drop 1 = v from rfl]

theorem no_twoDigit_suffix (l : List Char) (hscan : scanTwoDigitSeg true l = false)
    (c a b : Char) (t : List Char) (hw : (c :: a :: b :: t) <:+ l)
    (hc : isJsWs c = true) (ha : a.isDigit = true) (hb : b.isDigit = true)
    (hbound : t = [] ∨ ∃ y t2, t = y :: t2 ∧ isJsWs y = true) : False := by
  obtain ⟨g, hg⟩ := scanTwoDigitSeg_suffix l true hscan (c :: a :: b :: t) hw
  have htd : twoDigAt (b :: t) = true := by
    unfold twoDigAt
    rcases hbound with h0 | ⟨y, t2, ht, hy⟩
    · subst h0; simp [hb]
    · subst ht; simp [hb, hy]
  have hcomp : scanTwoDigitSeg g (c :: a :: b :: t) = true := by
    rw [show scanTwoDigitSeg g (c :: a :: b :: t) = scanTwoDigitSeg true (a :: b :: t) from by
      simp only [scanTwoDigitSeg]
      rw [if_pos hc]]
    rw [show scanTwoDigitSeg true (a :: b :: t)
        = (if isJsWs a then scanTwoDigitSeg true (b :: t)
           else if true && a.isDigit && twoDigAt (b :: t) then true
           else scanTwoDigitSeg false (b :: t)) from by simp only [scanTwoDigitSeg]]
    rw [if_neg (by simp [digit_not_ws a ha])]
    rw [if_pos (by rw [ha, htd]; rfl)]
  rw [hg] at hcomp
  exact absurd hcomp (by simp)

theorem suffix_getLast (w l : List Char) (h : w <:+ l) (hne : w ≠ []) :
    l.getLast? = w.getLast? := by
  obtain ⟨p, hp⟩ := h
  rw [← hp]
  exact getLast?_append_right p w hne

theorem tryTail_suffix_none (idL : List Char) (S1 : List Char)
    (hscan : scanTwoDigitSeg true idL = false)
    (hlast : ∀ c, idL.getLast? = some c → isJsWs c = false) :
    ∀ w, w <:+ idL → w ≠ [] → tryTail (w ++ (' ' :: S1)) = none := by
  intro w
  induction w with
  | nil => intro _ hne; exact absurd rfl hne
  | cons x w' ih =>
    intro hw _
    by_cases hx : isJsWs x = true
    · have hw'ne : w' ≠ [] := by
        intro h0
        subst h0
        have hlast' : idL.getLast? = some x := by
          rw [suffix_getLast [x] idL hw (by simp)]
          rfl
        have hxf := hlast x hlast'
        rw [hx] at hxf
        exact absurd hxf (by simp)
      have hw' : w' <:+ idL := (List.suffix_cons x w').trans hw
      rw [List.cons_append]
      by_cases hz : wsRunLen (w' ++ (' ' :: S1)) = 0
      · rw [tryTail_cons_ws_zero x _ hx hz]
        rcases hwc : w' with _ | ⟨a, w2⟩
        · exact absurd hwc hw'ne
        · subst hwc
          rcases hw2 : w2 with _ | ⟨b, t⟩
          · subst hw2
            rw [show ([a] ++ (' ' :: S1)) = a :: ' ' :: S1 from rfl]
            simp only [afterRun]
            rw [if_neg (show ¬ (a.isDigit && (' ').isDigit) = true from by
              rw [show (' ').isDigit = false from by decide]
              simp)]
          · subst hw2
            rw [show ((a :: b :: t) ++ (' ' :: S1)) = a :: b :: (t ++ ' ' :: S1) from rfl]
            simp only [afterRun]
            by_cases hd : (a.isDigit && b.isDigit) = true
            · rw [if_pos hd]
              have ha : a.isDigit = true := (Bool.and_eq_true _ _).mp hd |>.1
              have hb : b.isDigit = true := (Bool.and_eq_true _ _).mp hd |>.2
              rcases ht : t with _ | ⟨y, t2⟩
              · subst ht
                exact absurd (no_twoDigit_suffix idL hscan x a b [] hw hx ha hb (Or.inl rfl))
                  (fun h => h)
              · subst ht
                by_cases hy : isJsWs y = true
                · exact absurd
                    (no_twoDigit_suffix idL hscan x a b (y :: t2) hw hx ha hb
                      (Or.inr ⟨y, t2, rfl, hy⟩)) (fun h => h)
                · rw [Bool.not_eq_true] at hy
                  rw [show ((y :: t2) ++ (' ' :: S1)) = y :: (t2 ++ ' ' :: S1) from rfl]
                  rw [wsRunLen_cons_not y _ hy, if_pos rfl]
            · rw [if_neg hd]
      · rw [tryTail_cons_ws x _ hx hz]
        exact ih hw' hw'ne
    · rw [Bool.not_eq_true] at hx
      rw [List.cons_append]
      apply tryTail_head_not_ws
      intro c hc
      simp only [List.head?_cons, Option.some.injEq] at hc
      rw [← hc]
      exact hx

theorem findMid_append (v : List Char) :
    ∀ (u : List Char) (S : List Char), u ≠ [] →
      (∀ c ∈ u, (c == '\n' || c == '\r') = false) →
      (∀ w, w <:+ u → w ≠ u → w ≠ [] → tryTail (w ++ S) = none) →
      tryTail S = some v →
      findMid (u ++ S) = some v := by
  intro u
  induction u with
  | nil => intro S hne _ _ _; exact absurd rfl hne
  | cons x u' ih =>
    intro S _ hdot hsuf hS
    have hx : (x == '\n' || x == '\r') = false := hdot x (by simp)
    cases u' with
    | nil =>
      rw [show (([x] ++ S)) = x :: S from rfl]
      simp only [findMid]
      rw [if_neg (show ¬ (x == '\n' || x == '\r') = true from by rw [hx]; simp)]
      rw [hS]
    | cons y u'' =>
      rw [show ((x :: y :: u'') ++ S) = x :: ((y :: u'') ++ S) from rfl]
      simp only [findMid]
      rw [if_neg (show ¬ (x == '\n' || x == '\r') = true from by rw [hx]; simp)]
      have hnone : tryTail ((y :: u'') ++ S) = none := by
        apply hsuf (y :: u'') (List.suffix_cons x _)
        · intro hEq
          have hlen := congrArg List.length hEq
          simp at hlen
        · simp
      rw [hnone]
      apply ih S (by simp) (fun c hc => hdot c (List.mem_cons_of_mem x hc)) ?_ hS
      intro w hw hne1 hne2
      apply hsuf w (hw.trans (List.suffix_cons x _)) ?_ hne2
      intro hEq
      have hlen := hw.length_le
      rw [hEq] at hlen
      simp at hlen

/-- Whether a string begins with the literal `"ELV "`. -/
def startsWithELV (s : String) : Bool :=
  match s.toList with
  | 'E' :: 'L' :: 'V' :: ' ' :: _ => true
  | _ => false

/-- Whether the string contains an ASCII line terminator (`\n` or `\r`),
the characters that JavaScript `.` never matches. -/
def hasLineTerm (s : String) : Bool :=
  s.toList.any (fun c => c == '\n' || c == '\r')

theorem strip_fixed (name : String) :
    jsTrimList (stripElevatorRegionName name).toList
      = (stripElevatorRegionName name).toList := by
  simp only [stripElevatorRegionName]
  split
  · split
    · split
      · simp only [List.toList_asString]
        exact jsTrimList_idem _
      · simp only [List.toList_asString]
        exact jsTrimList_idem _
    · simp only [List.toList_asString]
      exact jsTrimList_idem _
  · simp only [List.toList_asString]
    exact jsTrimList_idem _

theorem strip_ne_empty (name : String) (h : jsTrimList name.toList ≠ []) :
    (stripElevatorRegionName name).toList ≠ [] := by
  simp only [stripElevatorRegionName]
  split
  next tl heq =>
    split
    · split
      next hstr =>
        rw [heq]
        simp [List.asString]
      next hstr =>
        rw [List.toList_asString]
        exact hstr
    · rw [heq]
      simp [List.asString]
  next heq =>
    rw [List.toList_asString]
    exact h

theorem strip_of_non_elv (name : String)
    (hpre : startsWithELV (jsTrim name) = false) :
    stripElevatorRegionName (jsTrim name) = jsTrim name := by
  have htl : (jsTrim name).toList = jsTrimList name.toList := by
    unfold jsTrim
    rw [List.toList_asString]
  simp only [stripElevatorRegionName]
  rw [htl, jsTrimList_idem]
  split
  next tl heq =>
    exfalso
    unfold startsWithELV at hpre
    rw [htl, heq] at hpre
    simp at hpre
  next heq =>
    unfold jsTrim
    rfl

theorem asString_toList (s : String) : s.toList.asString = s := rfl

theorem pad2_digits (m : Nat) (h1 : 1 ≤ m) (h2 : m ≤ 99) :
    (match (pad2 m).toList with
     | [a, b] => a.isDigit && b.isDigit
     | _ => false) = true := by
  interval_cases m <;> decide

theorem strip_head_not_ws (name : String) (c : Char)
    (h : (stripElevatorRegionName name).toList.head? = some c) : isJsWs c = false := by
  rw [← strip_fixed name] at h
  exact jsTrimList_head_not_ws _ c h

theorem strip_getLast_not_ws (name : String) (c : Char)
    (h : (stripElevatorRegionName name).toList.getLast? = some c) : isJsWs c = false := by
  rw [← strip_fixed name] at h
  exact jsTrimList_getLast_not_ws _ c h

theorem goA_one (t : List Char) (r : List Char) (h : findMid (t.drop 1) = some r) :
    goA t 1 = some r := by
  rw [show (1:Nat) = 0 + 1 from rfl]
  simp only [goA]
  rw [show (0:Nat) + 1 = 1 from rfl, h]

theorem strip_elv_success (R : List Char) (v : List Char)
    (hfix : jsTrimList ('E' :: 'L' :: 'V' :: ' ' :: R) = 'E' :: 'L' :: 'V' :: ' ' :: R)
    (hss : stripSearch (('E' :: 'L' :: 'V' :: ' ' :: R).drop 3) = some v)
    (hvfix : jsTrimList v = v) (hvne : v ≠ []) :
    stripElevatorRegionName ('E' :: 'L' :: 'V' :: ' ' :: R).asString = v.asString := by
  simp only [stripElevatorRegionName]
  rw [List.toList_asString, hfix]
  split
  next tl heq =>
    simp only [hss, hvfix]
    rw [if_neg hvne]
  next heq =>
    exact (heq R rfl).elim

/-- C9 (amended): for every elevatorId that trims to a nonempty string
whose whitespace-separated segments contain no standalone two-digit
number or a line terminator, every floor number at most 99, and every
label that trims to a nonempty string not starting with `"ELV "`,
stripping a formatted region name recovers the trimmed label, so
re-syncing cannot accumulate nested `"ELV"` markers.  (The original
claim, quantified over every floor number, fails at floors of 100 and
above: their numeral has three digits, which `\d{2}` of
`stripElevatorNamePrefix` cannot absorb.  An elevatorId containing `\n`
or `\r` also breaks the round trip, since `.` cannot cross it.) -/
theorem claim_C9_nameRoundTrip (elevatorId : String) (floorNumber : Nat) (label : String)
    (hid : jsTrim elevatorId ≠ "")
    (hseg : hasTwoDigitSegment (jsTrim elevatorId) = false)
    (hterm : hasLineTerm (jsTrim elevatorId) = false)
    (hfl : floorNumber ≤ 99)
    (hlb : jsTrim label ≠ "")
    (hpre : startsWithELV (jsTrim label) = false) :
    stripElevatorRegionName (formatElevatorRegionName elevatorId floorNumber label)
      = jsTrim label := by
  have happ : ∀ a b : String, (a ++ b).toList = a.toList ++ b.toList :=
    fun a b => String.data_append a b
  have hidtl : (jsTrim elevatorId).toList = jsTrimList elevatorId.toList := by
    unfold jsTrim
    rw [List.toList_asString]
  have hlbtl : (jsTrim label).toList = jsTrimList label.toList := by
    unfold jsTrim
    rw [List.toList_asString]
  have hidne : (jsTrim elevatorId).toList ≠ [] := by
    intro h0
    apply hid
    have h1 : jsTrim elevatorId = (jsTrim elevatorId).toList.asString :=
      (asString_toList _).symm
    rw [h0] at h1
    exact h1
  have hvne : (jsTrim label).toList ≠ [] := by
    intro h0
    apply hlb
    have h1 : jsTrim label = (jsTrim label).toList.asString := (asString_toList _).symm
    rw [h0] at h1
    exact h1
  have hidhead : ∀ c, (jsTrim elevatorId).toList.head? = some c → isJsWs c = false := by
    intro c hc
    rw [hidtl] at hc
    exact jsTrimList_head_not_ws _ c hc
  have hidlast : ∀ c, (jsTrim elevatorId).toList.getLast? = some c → isJsWs c = false := by
    intro c hc
    rw [hidtl] at hc
    exact jsTrimList_getLast_not_ws _ c hc
  have hvfix : jsTrimList (jsTrim label).toList = (jsTrim label).toList := by
    rw [hlbtl]
    exact jsTrimList_idem _
  have hvhead : ∀ c, (jsTrim label).toList.head? = some c → isJsWs c = false := by
    intro c hc
    rw [← hvfix] at hc
    exact jsTrimList_head_not_ws _ c hc
  have hvlast : ∀ c, (jsTrim label).toList.getLast? = some c → isJsWs c = false := by
    intro c hc
    rw [← hvfix] at hc
    exact jsTrimList_getLast_not_ws _ c hc
  have hscan : scanTwoDigitSeg true (jsTrim elevatorId).toList = false := hseg
  have hmax99 : max 1 floorNumber ≤ 99 := by omega
  have hdig := pad2_digits (max 1 floorNumber) (le_max_left 1 floorNumber) hmax99
  obtain ⟨d1, d2, hnum, hd1, hd2⟩ :
      ∃ d1 d2, (pad2 (max 1 floorNumber)).toList = [d1, d2] ∧
        d1.isDigit = true ∧ d2.isDigit = true := by
    rcases hl : (pad2 (max 1 floorNumber)).toList with _ | ⟨a, _ | ⟨b, _ | ⟨e, r⟩⟩⟩
    · rw [hl] at hdig; simp at hdig
    · rw [hl] at hdig; simp at hdig
    · rw [hl] at hdig
      simp only [Bool.and_eq_true] at hdig
      exact ⟨a, b, rfl, hdig.1, hdig.2⟩
    · rw [hl] at hdig; simp at hdig
  have hlbl : stripElevatorRegionName (jsTrim label) = jsTrim label :=
    strip_of_non_elv label hpre
  have hfmt : formatElevatorRegionName elevatorId floorNumber label
      = jsTrim ("ELV " ++ jsTrim elevatorId ++ " " ++ pad2 (max 1 floorNumber)
          ++ " " ++ jsTrim label) := by
    simp only [formatElevatorRegionName]
    rw [hlbl]
  have hBIGL : ("ELV " ++ jsTrim elevatorId ++ " " ++ pad2 (max 1 floorNumber)
        ++ " " ++ jsTrim label).toList
      = 'E' :: 'L' :: 'V' :: ' ' :: ((jsTrim elevatorId).toList
          ++ ' ' :: d1 :: d2 :: ' ' :: (jsTrim label).toList) := by
    simp only [happ, hnum]
    rw [show ("ELV ").toList = ['E', 'L', 'V', ' '] from rfl,
       show (" ").toList = [' '] from rfl]
    simp
  have hghead : ∀ c, ('E' :: 'L' :: 'V' :: ' ' :: ((jsTrim elevatorId).toList
        ++ ' ' :: d1 :: d2 :: ' ' :: (jsTrim label).toList)).head? = some c →
      isJsWs c = false := by
    intro c hc
    simp only [List.head?_cons, Option.some.injEq] at hc
    subst hc
    decide
  have hglast : ∀ c, ('E' :: 'L' :: 'V' :: ' ' :: ((jsTrim elevatorId).toList
        ++ ' ' :: d1 :: d2 :: ' ' :: (jsTrim label).toList)).getLast? = some c →
      isJsWs c = false := by
    intro c hc
    rw [show ('E' :: 'L' :: 'V' :: ' ' :: ((jsTrim elevatorId).toList
          ++ ' ' :: d1 :: d2 :: ' ' :: (jsTrim label).toList))
        = (['E', 'L', 'V', ' '] ++ (jsTrim elevatorId).toList ++ [' ', d1, d2, ' '])
            ++ (jsTrim label).toList from by simp] at hc
    rw [getLast?_append_right _ _ hvne] at hc
    exact hvlast c hc
  have hfix : jsTrimList ('E' :: 'L' :: 'V' :: ' ' :: ((jsTrim elevatorId).toList
        ++ ' ' :: d1 :: d2 :: ' ' :: (jsTrim label).toList))
      = 'E' :: 'L' :: 'V' :: ' ' :: ((jsTrim elevatorId).toList
          ++ ' ' :: d1 :: d2 :: ' ' :: (jsTrim label).toList) :=
    jsTrimList_eq_self _ hghead hglast
  have hjt : jsTrim ("ELV " ++ jsTrim elevatorId ++ " " ++ pad2 (max 1 floorNumber)
        ++ " " ++ jsTrim label)
      = ('E' :: 'L' :: 'V' :: ' ' :: ((jsTrim elevatorId).toList
          ++ ' ' :: d1 :: d2 :: ' ' :: (jsTrim label).toList)).asString := by
    rw [show jsTrim ("ELV " ++ jsTrim elevatorId ++ " " ++ pad2 (max 1 floorNumber)
          ++ " " ++ jsTrim label)
        = (jsTrimList ("ELV " ++ jsTrim elevatorId ++ " " ++ pad2 (max 1 floorNumber)
            ++ " " ++ jsTrim label).toList).asString from rfl]
    rw [hBIGL, hfix]
  have htS : tryTail (' ' :: d1 :: d2 :: ' ' :: (jsTrim label).toList)
      = some (jsTrim label).toList :=
    tryTail_S d1 d2 _ hd1 hd2 hvne hvhead
  have hsuf := tryTail_suffix_none (jsTrim elevatorId).toList
    (d1 :: d2 :: ' ' :: (jsTrim label).toList) hscan hidlast
  have hdot : ∀ c ∈ (jsTrim elevatorId).toList, (c == '\n' || c == '\r') = false := by
    intro c hc
    cases hb : (c == '\n' || c == '\r') with
    | false => rfl
    | true =>
      exfalso
      have hany : hasLineTerm (jsTrim elevatorId) = true := by
        unfold hasLineTerm
        rw [List.any_eq_true]
        exact ⟨c, hc, hb⟩
      rw [hterm] at hany
      exact absurd hany (by simp)
  have hFM : findMid ((jsTrim elevatorId).toList
        ++ ' ' :: d1 :: d2 :: ' ' :: (jsTrim label).toList)
      = some (jsTrim label).toList :=
    findMid_append _ _ _ hidne hdot (fun w hw _ hne2 => hsuf w hw hne2) htS
  have hrun : wsRunLen (' ' :: ((jsTrim elevatorId).toList
        ++ ' ' :: d1 :: d2 :: ' ' :: (jsTrim label).toList)) = 1 := by
    rw [wsRunLen_cons_ws _ _ (by decide)]
    rcases hidc : (jsTrim elevatorId).toList with _ | ⟨c0, id0⟩
    · exact absurd hidc hidne
    · rw [List.cons_append, wsRunLen_cons_not c0 _ ?_]
      have hh := hidhead c0
      rw [hidc] at hh
      exact hh rfl
  have hss : stripSearch (('E' :: 'L' :: 'V' :: ' ' :: ((jsTrim elevatorId).toList
        ++ ' ' :: d1 :: d2 :: ' ' :: (jsTrim label).toList)).drop 3)
      = some (jsTrim label).toList := by
    rw [show ('E' :: 'L' :: 'V' :: ' ' :: ((jsTrim elevatorId).toList
          ++ ' ' :: d1 :: d2 :: ' ' :: (jsTrim label).toList)).drop 3
        = ' ' :: ((jsTrim elevatorId).toList
            ++ ' ' :: d1 :: d2 :: ' ' :: (jsTrim label).toList) from rfl]
    unfold stripSearch
    rw [hrun]
    exact goA_one _ _ hFM
  rw [hfmt, hjt, strip_elv_success _ _ hfix hss hvfix hvne]
  exact asString_toList (jsTrim label)

/-- C9 counterexample: elevatorId `"x"` has no two-digit segment and the
label `"A"` is nonempty and does not start with `"ELV "`, yet at floor
100 the formatted name `"ELV x 100 A"` survives stripping unchanged —
`\d{2}` cannot absorb the three-digit floor — so the round trip does not
return the trimmed label. -/
theorem claim_C9_counterexample :
    jsTrim "A" = "A" ∧
    hasTwoDigitSegment (jsTrim "x") = false ∧
    hasLineTerm (jsTrim "x") = false ∧
    startsWithELV (jsTrim "A") = false ∧
    formatElevatorRegionName "x" 100 "A" = "ELV x 100 A" ∧
    stripElevatorRegionName (formatElevatorRegionName "x" 100 "A") = "ELV x 100 A" ∧
    stripElevatorRegionName (formatElevatorRegionName "x" 100 "A") ≠ jsTrim "A" := by
  refine ⟨by decide, by decide, by decide, by decide, by decide, by decide, by decide⟩

/-- C9 witness: a concrete round trip through the amended theorem. -/
theorem claim_C9_witness :
    jsTrim "car" ≠ "" ∧
    hasTwoDigitSegment (jsTrim "car") = false ∧
    hasLineTerm (jsTrim "car") = false ∧
    (3 : Nat) ≤ 99 ∧
    jsTrim " Lobby " ≠ "" ∧
    startsWithELV (jsTrim " Lobby ") = false ∧
    stripElevatorRegionName (formatElevatorRegionName "car" 3 " Lobby ")
      = jsTrim " Lobby " :=
  ⟨by decide, by decide, by decide, by decide, by decide, by decide,
   claim_C9_nameRoundTrip "car" 3 " Lobby " (by decide) (by decide) (by decide)
     (by decide) (by decide) (by decide)⟩
